import Mathlib

/-!
Verification model of the Spiderman-v3 (kith-platform) CSV reconciliation engine.

Shallow embedding of the relevant code of `src/kith-platform/app.py` and
`src/kith-platform/constants.py`:
  * `canonicalize_category` and its tables (app.py lines 2180-2207, constants.py),
  * `infer_category_from_text` and its keyword tables (app.py lines 2074-2255),
  * `run_merge_process` (app.py lines 3882-4170) over an abstract store
    (the `contacts` and `synthesized_entries` tables),
  * `merge_from_csv_endpoint` (app.py lines 3813-3879) together with the
    idempotency ledger (the `file_imports` table, unique on
    `(import_type, file_hash)`).

Modelling conventions: strings are Lean `String`s over their character lists;
Python `str.strip`/`lower`/`upper` are modelled on ASCII (all data the engine
compares is ASCII); SQLite rows become Lean structures; autoincrement ids
become explicit counters.  Fields that no claim mentions and that cannot
influence control flow (`confidence_score` and `created_at` of a synthesized
entry, `vector_collection_id` and timestamps of a contact, `stats_json` of a
ledger row, and the dry-run `conflicts` preview list) are omitted; every
branch that writes them is kept.  Python regular expressions are modelled by
explicit executable matchers with word-boundary semantics.
-/

/-! ## Python string primitives -/

/-- Characters treated as whitespace by Python `str.strip` / regex `\s` (ASCII). -/
def pyIsSpace (c : Char) : Bool :=
  c == ' ' || c == '\t' || c == '\n' || c == '\r' || c == '\x0b' || c == '\x0c'

/-- Python `str.strip()` on a character list. -/
def pyStripList (l : List Char) : List Char :=
  ((l.dropWhile pyIsSpace).reverse.dropWhile pyIsSpace).reverse

/-- Python `str.strip()`. -/
def pyStrip (s : String) : String := ⟨pyStripList s.data⟩

/-- Python `str.lower()` (ASCII). -/
def pyLower (s : String) : String := ⟨s.data.map Char.toLower⟩

/-- Python `str.upper()` (ASCII). -/
def pyUpper (s : String) : String := ⟨s.data.map Char.toUpper⟩

/-- Python `s.replace(' ', '_')`. -/
def pyUnderscore (s : String) : String :=
  ⟨s.data.map (fun c => if c = ' ' then '_' else c)⟩

/-- Python `a or b` for strings: `b` when `a` is falsy (empty). -/
def pyOrS (a b : String) : String := if a = "" then b else a

/-- Python `a or b` where `a`, `b` are `str | None` (`dict.get` results). -/
def pyOrO (a b : Option String) : Option String :=
  match a with
  | some s => if s = "" then b else some s
  | none => b

/-- Python substring test `pat in hay`. -/
def listHasSub (hay pat : List Char) : Bool :=
  match hay with
  | [] => pat.isEmpty
  | c :: rest => pat.isPrefixOf (c :: rest) || listHasSub rest pat

/-- Python substring test on strings: `strHasSub hay pat` is `pat in hay`. -/
def strHasSub (hay pat : String) : Bool := listHasSub hay.data pat.data

/-- Python `hay.startswith(pat)`. -/
def strStartsWith (hay pat : String) : Bool := pat.data.isPrefixOf hay.data

/-! ## constants.py: the canonical category tokens -/

namespace Categories

def ACTIONABLE : String := "Actionable"
def GOALS : String := "Goals"
def RELATIONSHIP_STRATEGY : String := "Relationship_Strategy"
def SOCIAL : String := "Social"
def WELLBEING : String := "Wellbeing"
def AVOCATION : String := "Avocation"
def PROFESSIONAL_BACKGROUND : String := "Professional_Background"
def ENVIRONMENT_AND_LIFESTYLE : String := "Environment_And_Lifestyle"
def PSYCHOLOGY_AND_VALUES : String := "Psychology_And_Values"
def COMMUNICATION_STYLE : String := "Communication_Style"
def CHALLENGES_AND_DEVELOPMENT : String := "Challenges_And_Development"
def ADMIN_MATTERS : String := "Admin_Matters"
def DEEPER_INSIGHTS : String := "Deeper_Insights"
def FINANCIAL_SITUATION : String := "Financial_Situation"
def ESTABLISHED_PATTERNS : String := "ESTABLISHED_PATTERNS"
def CORE_IDENTITY : String := "CORE_IDENTITY"
def INFORMATION_GAPS : String := "Information gaps"
def MEMORY_ANCHORS : String := "Memory anchors"
def POSITIONALITY : String := "POSITIONALITY"
def OTHERS : String := "Others"

end Categories

/-- constants.py `CATEGORY_ORDER`: the fixed ordered list of 20 canonical tokens. -/
def CATEGORY_ORDER : List String := [
  Categories.ACTIONABLE,
  Categories.GOALS,
  Categories.RELATIONSHIP_STRATEGY,
  Categories.SOCIAL,
  Categories.WELLBEING,
  Categories.AVOCATION,
  Categories.PROFESSIONAL_BACKGROUND,
  Categories.ENVIRONMENT_AND_LIFESTYLE,
  Categories.PSYCHOLOGY_AND_VALUES,
  Categories.COMMUNICATION_STYLE,
  Categories.CHALLENGES_AND_DEVELOPMENT,
  Categories.DEEPER_INSIGHTS,
  Categories.FINANCIAL_SITUATION,
  Categories.ADMIN_MATTERS,
  Categories.ESTABLISHED_PATTERNS,
  Categories.CORE_IDENTITY,
  Categories.INFORMATION_GAPS,
  Categories.MEMORY_ANCHORS,
  Categories.POSITIONALITY,
  Categories.OTHERS
]

/-- app.py `VALID_CATEGORY_SET = set(CATEGORY_ORDER)`.  `CATEGORY_ORDER` has no
duplicates (`CATEGORY_ORDER_nodup` below), so the set is modelled by the list
itself; membership tests coincide. -/
def VALID_CATEGORY_SET : List String := CATEGORY_ORDER

/-- app.py `SYNONYM_TO_CATEGORY` (lines 2180-2190). -/
def SYNONYM_TO_CATEGORY : List (String × String) := [
  ("preferences", Categories.AVOCATION),
  ("hobbies", Categories.AVOCATION),
  ("work_history", Categories.PROFESSIONAL_BACKGROUND),
  ("work", Categories.PROFESSIONAL_BACKGROUND),
  ("job", Categories.PROFESSIONAL_BACKGROUND),
  ("contact_info", Categories.ADMIN_MATTERS),
  ("logistics", Categories.ADMIN_MATTERS),
  ("health", Categories.WELLBEING),
  ("habits", Categories.ESTABLISHED_PATTERNS)
]

/-! ## app.py `canonicalize_category` (lines 2192-2207) -/

/-- The Python argument may be any value; the code first tests
`isinstance(category_name, str)`.  Non-string inputs are collapsed into one
constructor since the code treats them all alike. -/
inductive CatInput where
  | str (s : String)
  | nonString
deriving DecidableEq

/-- app.py `canonicalize_category`.  Resolution order: exact match after
space-to-underscore normalization, case-insensitive match, synonym table,
fallback `Others`.  The Python `if mapped:` test is falsy both for a missing
key (`None`) and for an empty-string value. -/
def canonicalize_category (category_name : CatInput) : String :=
  match category_name with
  | .nonString => Categories.OTHERS
  | .str s =>
    let normalized := pyUnderscore (pyStrip s)
    if VALID_CATEGORY_SET.contains normalized then normalized
    else
      match VALID_CATEGORY_SET.find? (fun cat => pyLower normalized = pyLower cat) with
      | some cat => cat
      | none =>
        match SYNONYM_TO_CATEGORY.find? (fun p => p.1 = pyLower normalized) with
        | some p => if p.2 = "" then Categories.OTHERS else p.2
        | none => Categories.OTHERS


/-! ## app.py `infer_category_from_text` (lines 2211-2255)

The regular expressions of the source are modelled by explicit executable
matchers.  `\b` is a word boundary: exactly one of the two adjacent positions
holds a word character (`[a-zA-Z0-9_]`), with the virtual characters beyond
either end of the string counting as non-word. -/

def isWordChar (c : Char) : Bool := c.isAlphanum || c == '_'

/-- Word-boundary test between an optional preceding character and the next
character of the text. -/
def wordBdry (prev : Option Char) (c : Char) : Bool :=
  (match prev with | none => false | some p => isWordChar p) != isWordChar c

/-- Word-boundary test after a final matched character, before the remaining
text. -/
def wordBdryEnd (lastc : Char) (rest : List Char) : Bool :=
  isWordChar lastc != (match rest with | [] => false | c :: _ => isWordChar c)

/-- Consume a literal pattern, returning the remaining text on success. -/
def eatLit : List Char → List Char → Option (List Char)
  | [], l => some l
  | _ :: _, [] => none
  | p :: ps, c :: cs => if c = p then eatLit ps cs else none

/-- Run an at-position matcher at every position of the text (the semantics of
`re.search`), threading the preceding character for boundary tests. -/
def searchFrom (f : Option Char → List Char → Bool) : Option Char → List Char → Bool
  | _, [] => false
  | prev, c :: rest => f prev (c :: rest) || searchFrom f (some c) rest

/-- Character class `[a-z0-9._%+-]` of the e-mail regex local part. -/
def isLocalChar (c : Char) : Bool :=
  c.isLower || c.isDigit || c == '.' || c == '_' || c == '%' || c == '+' || c == '-'

/-- Character class `[a-z0-9.-]` of the e-mail regex domain part. -/
def isDomChar (c : Char) : Bool := c.isLower || c.isDigit || c == '.' || c == '-'

/-- `[a-z]{2,}\b` at the start of the text: at least two lowercase letters
followed by a word boundary.  (A shorter prefix of the letter run can never be
followed by a boundary, since the following character would be a letter.) -/
def tldCheck (l : List Char) : Bool :=
  let run := l.takeWhile Char.isLower
  decide (2 ≤ run.length) &&
    (match l.drop run.length with | [] => true | c :: _ => !isWordChar c)

/-- Scan `[a-z0-9.-]+\.` then `[a-z]{2,}\b`: at each `'.'` reached after at
least one domain character the tail may serve as the top-level domain, and the
`'.'` itself may also be consumed as a domain character. -/
def domScan : Bool → List Char → Bool
  | _, [] => false
  | seen, c :: rest =>
    if c = '.' then (seen && tldCheck rest) || domScan true rest
    else if isDomChar c then domScan true rest
    else false

/-- Matcher at one position for `\b[a-z0-9._%+-]+@[a-z0-9.-]+\.[a-z]{2,}\b`.
The local-part run is forced maximal because `'@'` is not a local character. -/
def emailAt (prev : Option Char) (l : List Char) : Bool :=
  match l.takeWhile isLocalChar with
  | [] => false
  | c :: _ =>
    wordBdry prev c &&
      (match l.drop (l.takeWhile isLocalChar).length with
       | '@' :: rest => domScan false rest
       | _ => false)

/-- app.py line 2218: `re.search(r"\b[a-z0-9._%+-]+@[a-z0-9.-]+\.[a-z]{2,}\b", t)`. -/
def emailSearch (t : List Char) : Bool := searchFrom emailAt none t

/-- After `http`, an optional `s`, then `://` and at least one non-space. -/
def urlTail (rest : List Char) : Bool :=
  match eatLit "://".data rest with
  | some r => (match r with | c :: _ => !pyIsSpace c | [] => false)
  | none => false

/-- Matcher at one position for `\bhttps?://\S+`. -/
def urlAt (prev : Option Char) (l : List Char) : Bool :=
  wordBdry prev 'h' &&
    (match eatLit "http".data l with
     | some rest =>
       (match rest with | 's' :: r => urlTail r | _ => false) || urlTail rest
     | none => false)

/-- app.py line 2220: `re.search(r"\bhttps?://\S+", t)`. -/
def urlSearch (t : List Char) : Bool := searchFrom urlAt none t

/-- app.py lines 2217-2223, step 1 of the classifier: e-mail or URL or
`linkedin` cue forces `Admin_Matters`.  (The `try/except` of the source is
dead: the compiled patterns cannot raise.) -/
def structuralCue (t : List Char) : Bool :=
  emailSearch t || urlSearch t || listHasSub t "linkedin.com".data ||
    "linkedin:".data.isPrefixOf t

/-- app.py lines 2226-2232: `resume_terms`. -/
def resume_terms : List String := [
  "intern", "research assistant", "assistant", "ui/ux", "ux", "adobe xd",
  "organising committee", "organizing committee", "vice-president", "aiesec",
  "conducted", "headed", "orientation", "data collection", "projects", "experience",
  "member of", "marketing", "engineer", "manager", "school", "university",
  "managed", "organized", "organised", "led", "lead", "committee", "position"
]

/-- Step 2 of the classifier: `any(term in t for term in resume_terms)`. -/
def resumeCue (t : List Char) : Bool :=
  resume_terms.any (fun term => listHasSub t term.data)

/-- Literal keyword with a word boundary on each side (`rf"\b{re.escape(kw)}\b"`),
tried at one position. -/
def litBndAt (kw : List Char) (prev : Option Char) (l : List Char) : Bool :=
  match kw with
  | [] => false
  | k0 :: ks =>
    wordBdry prev k0 &&
      (match eatLit (k0 :: ks) l with
       | some rest => wordBdryEnd ((k0 :: ks).getLastD k0) rest
       | none => false)

/-- `re.search` of a word-bounded literal keyword. -/
def litBndSearch (kw : String) (t : List Char) : Bool := searchFrom (litBndAt kw.data) none t

/-- Matcher at one position for `\bto\s+do\b`. -/
def toDoAt (prev : Option Char) (l : List Char) : Bool :=
  wordBdry prev 't' &&
    (match eatLit "to".data l with
     | some rest =>
       let run := rest.takeWhile pyIsSpace
       decide (1 ≤ run.length) &&
         (match eatLit "do".data (rest.drop run.length) with
          | some r => wordBdryEnd 'o' r
          | none => false)
     | none => false)

/-- Matcher at one position for `\bfollow[- ]up\b`. -/
def followUpAt (prev : Option Char) (l : List Char) : Bool :=
  wordBdry prev 'f' &&
    (match eatLit "follow".data l with
     | some rest =>
       (match rest with
        | c :: r =>
          (c = '-' || c = ' ') &&
            (match eatLit "up".data r with
             | some r2 => wordBdryEnd 'p' r2
             | none => false)
        | [] => false)
     | none => false)

/-- The apostrophe character, for the `let's` pattern. -/
def apoChar : Char := Char.ofNat 39

/-- app.py lines 2237-2241: the `actionable_patterns`, in source order.
`^action( item)?:` is anchored; `\bETA\b` is uppercase and the text is
lowercased by the caller, so that pattern can never fire (kept faithfully). -/
def actionableCue (t : List Char) : Bool :=
  searchFrom toDoAt none t ||
  searchFrom followUpAt none t ||
  litBndSearch "need to" t ||
  litBndSearch "plan to" t ||
  litBndSearch "schedule" t ||
  litBndSearch "remind" t ||
  searchFrom (litBndAt (['l', 'e', 't', apoChar, 's'])) none t ||
  litBndSearch "please" t ||
  litBndSearch "next week" t ||
  "action:".data.isPrefixOf t || "action item:".data.isPrefixOf t ||
  litBndSearch "ETA" t ||
  litBndSearch "due" t

/-- app.py lines 2075-2178: `KEYWORD_CATEGORY_MAP`. -/
def KEYWORD_CATEGORY_MAP : List (String × List String) := [
  (Categories.ACTIONABLE, [
    "todo", "follow up", "follow-up", "next week", "schedule", "remind",
    "arrange", "set up", "book", "plan", "meet", "call", "email",
    "action item", "due", "deadline", "ASAP", "to-do"
  ]),
  (Categories.GOALS, [
    "goal", "aim", "objective", "wants to", "plans to", "hopes to", "target",
    "ambition", "aspire", "intend to"
  ]),
  (Categories.RELATIONSHIP_STRATEGY, [
    "approach", "keep in touch", "build", "nurture", "stay connected",
    "check in", "best to", "strategy", "reach out", "touch base"
  ]),
  (Categories.SOCIAL, [
    "party", "event", "dinner", "drinks", "hang out", "friends", "club",
    "wedding", "celebration", "gathering", "meetup", "bbt party"
  ]),
  (Categories.WELLBEING, [
    "health", "exercise", "stress", "anxiety", "sleep", "diet", "mental",
    "wellbeing", "well-being", "therapy", "gym", "workout"
  ]),
  (Categories.AVOCATION, [
    "likes", "enjoys", "hobby", "hobbies", "interest", "interests",
    "favorite", "favourite", "music", "sport", "movie", "hiking",
    "food", "cuisine", "travel", "coffee", "tea", "bubble tea",
    "bbt", "nasi lemak", "sashimi", "strawberries", "mint ice cream"
  ]),
  (Categories.PROFESSIONAL_BACKGROUND, [
    "work", "job", "career", "role", "company", "employer", "startup",
    "industry", "boss", "colleague", "dentist", "engineer", "founder",
    "managed", "organized", "organised", "led", "lead", "committee",
    "aiesec", "internship", "intern", "cv", "resume", "position",
    "experience", "project", "orientation", "data collection", "research"
  ]),
  (Categories.ENVIRONMENT_AND_LIFESTYLE, [
    "lives", "living", "apartment", "house", "city", "singapore",
    "commute", "car", "pet", "lifestyle", "neighborhood", "neighbourhood"
  ]),
  (Categories.PSYCHOLOGY_AND_VALUES, [
    "values", "belief", "personality", "introvert", "extrovert",
    "principle", "priority", "ethos", "mindset"
  ]),
  (Categories.COMMUNICATION_STYLE, [
    "prefers text", "prefers call", "communication", "responds", "reply",
    "tone", "style", "email vs", "whatsapp", "fast reply", "slow to reply"
  ]),
  (Categories.CHALLENGES_AND_DEVELOPMENT, [
    "challenge", "difficulty", "struggle", "learning", "improve",
    "development", "working on", "needs help"
  ]),
  (Categories.DEEPER_INSIGHTS, [
    "pattern", "tends to", "usually", "often", "underlying", "insight",
    "tendency"
  ]),
  (Categories.FINANCIAL_SITUATION, [
    "salary", "income", "bonus", "money", "finance", "budget",
    "savings", "debt", "expenses"
  ]),
  (Categories.ADMIN_MATTERS, [
    "address", "email", "phone", "birthday", "contact", "handle",
    "passport", "booking ref", "reservation", "logistics", "linkedin",
    "url", "website"
  ]),
  (Categories.ESTABLISHED_PATTERNS, [
    "always", "every", "habit", "routine", "pattern", "regularly",
    "weekly", "daily"
  ]),
  (Categories.CORE_IDENTITY, [
    "identity", "who he is", "who she is", "self", "core", "background"
  ]),
  (Categories.INFORMATION_GAPS, [
    "unknown", "not sure", "need to find", "unclear", "missing",
    "TBD", "to be decided"
  ]),
  (Categories.MEMORY_ANCHORS, [
    "remember", "note", "key detail", "anchor", "remember to"
  ]),
  (Categories.POSITIONALITY, [
    "status", "role in", "position", "senior", "junior", "cpo",
    "vp", "vice-president", "president"
  ]),
  (Categories.OTHERS, ["misc", "other"])
]

/-- Step 4 of the classifier: scan the ordered keyword map with word-boundary
matching, first matching category wins.  (The `except re.error` fallback of
the source is dead: every keyword is `re.escape`d.) -/
def keywordScan (t : List Char) : List (String × List String) → String
  | [] => Categories.OTHERS
  | (cat, kws) :: rest =>
    if kws.any (fun kw => litBndSearch kw t) then cat else keywordScan t rest

/-- app.py `infer_category_from_text` (lines 2211-2255).  The `(text or '')`
guard of the source handles a `None` argument; the modelled argument is
already a string. -/
def infer_category_from_text (text : String) : String :=
  let t := (pyLower text).data
  if t.isEmpty then Categories.OTHERS
  else if structuralCue t then Categories.ADMIN_MATTERS
  else if resumeCue t then Categories.PROFESSIONAL_BACKGROUND
  else if actionableCue t then Categories.ACTIONABLE
  else keywordScan t KEYWORD_CATEGORY_MAP


/-! ## The store: `contacts` and `synthesized_entries` tables

`run_merge_process` reads and writes two tables.  A contact row keeps the
columns the engine consults (`id`, `full_name`, `tier`, `user_id` — nullable,
read through `COALESCE(user_id, 1)`); a synthesized entry keeps
(`contact_id`, `category`, `content`).  SQLite rowids are modelled by the
explicit allocator `next_contact_id`. -/

structure Contact where
  id : Int
  full_name : String
  tier : Int
  user_id : Option Nat
deriving DecidableEq

structure Detail where
  contact_id : Int
  category : String
  content : String
deriving DecidableEq

structure Store where
  contacts : List Contact
  details : List Detail
  next_contact_id : Int
deriving DecidableEq

/-- `SELECT ... FROM contacts WHERE COALESCE(user_id, 1) = 1`. -/
def Contact.inScope (c : Contact) : Bool := c.user_id.getD 1 == 1

/-- The key of the case-insensitive contact map:
`(row['full_name'] or '').strip().lower()`. -/
def contactKey (name : String) : String := pyLower (pyStrip name)

/-! ## Header resolution (`norm`, `canon`, `has_logical`, `get_val`,
app.py lines 3908-3969) -/

/-- One parsed CSV row: the `csv.DictReader` dictionary, keyed by header.
`rowGet r h` is Python `row.get(h)` (`None` when the header is absent). -/
def Row := List (String × String)

def rowGet (r : Row) (h : String) : Option String :=
  (List.find? (fun p => p.1 = h) r).map (fun p => p.2)

/-- app.py `norm`: `(s or '').strip()` applied to a `dict.get` result. -/
def normO (s : Option String) : String := pyStrip (s.getD "")

/-- app.py `canon`: `re.sub(r'[^a-z0-9]', '', (name or '').lower())`. -/
def headerCanon (s : String) : String :=
  ⟨(pyLower s).data.filter (fun c => c.isLower || c.isDigit)⟩

/-- app.py `has_logical` candidate table. -/
def hasLogicalCands (k : String) : List String :=
  if k = "record_type" then ["record_type", "record_t", "type"] else [k]

/-- app.py `has_logical`: canonical prefix matching of any candidate against
any header. -/
def has_logical (fieldnames : List String) (k : String) : Bool :=
  fieldnames.any (fun h =>
    (hasLogicalCands k).any (fun cand =>
      let ch := headerCanon h
      let cc := headerCanon cand
      ch = cc || strStartsWith ch cc || strStartsWith cc ch))

/-- app.py `get_val` `header_mappings` table. -/
def headerCands (k : String) : List String :=
  if k = "record_type" then ["record_type"]
  else if k = "contact_full_name" then ["contact_full_name", "contact_full", "full_name", "name"]
  else if k = "contact_tier" then ["contact_tier", "tier"]
  else if k = "category" then ["category"]
  else if k = "detail_content" then ["detail_content", "detail_conte", "content"]
  else if k = "entry_date" then ["log_timestamp", "created_at", "entry_date", "timestamp"]
  else if k = "raw_note_content" then ["raw_note_content", "raw_note", "note_content", "note"]
  else [k]

/-- app.py `get_val`: exact header match, then case-insensitive match, then
canonical prefix/substring match over the stripped fieldnames; the default is
the empty string, and the resolved value is passed through `norm`. -/
def get_val (fieldnames : List String) (row : Row) (k : String) : String :=
  let cands := headerCands k
  match fieldnames.find? (fun h => cands.contains h) with
  | some h => normO (rowGet row h)
  | none =>
    match fieldnames.find? (fun h => cands.any (fun cand => pyLower h = pyLower cand)) with
    | some h => normO (rowGet row h)
    | none =>
      match fieldnames.find? (fun h => cands.any (fun cand =>
          let ch := headerCanon h
          let cc := headerCanon cand
          ch = cc || strStartsWith ch cc || strStartsWith cc ch)) with
      | some h => normO (rowGet row h)
      | none => ""

/-! ## app.py `classify_record_type` (lines 4172-4196) and `to_int_or` -/

/-- app.py `classify_record_type`: exact uppercase match, then substring
containment. -/
def classify_record_type (value : String) : String :=
  if value = "" then ""
  else
    let v := pyUpper (pyStrip value)
    if v = "CONTACT" then "CONTACT"
    else if v = "SYNTHESIZED_DETAIL" then "SYNTHESIZED_DETAIL"
    else if v = "RAW_NOTE" then "RAW_NOTE"
    else if strHasSub v "CONTACT" then "CONTACT"
    else if strHasSub v "SYNTHESIZED" || strHasSub v "DETAIL" then "SYNTHESIZED_DETAIL"
    else if strHasSub v "RAW" && strHasSub v "NOTE" then "RAW_NOTE"
    else ""

/-- ASCII digit-string parser for Python `int(v)` (sign and digits; the PEP 515
underscore grouping and non-ASCII digits are not modelled — every tier value
the engine meets is plain digits, and a parse failure only picks the default). -/
def digitsToNat : List Char → Option Nat
  | [] => none
  | l => if l.all Char.isDigit
         then some (l.foldl (fun a c => a * 10 + (c.toNat - 48)) 0)
         else none

def pyParseInt (s : String) : Option Int :=
  match s.data with
  | '+' :: rest => (digitsToNat rest).map Int.ofNat
  | '-' :: rest => (digitsToNat rest).map (fun n => -(n : Int))
  | l => (digitsToNat l).map Int.ofNat

/-- app.py `to_int_or`: `int(str(val).strip())` with a default on empty or
unparsable input. -/
def to_int_or (default : Int) (val : String) : Int :=
  let v := pyStrip val
  if v = "" then default
  else match pyParseInt v with
       | some n => n
       | none => default

/-! ## The merge engine state

The in-memory state of one `run_merge_process` call: the running statistics,
the case-insensitive `name_to_contact_id` dictionary, the per-contact
signature sets `existing_details_map` (a total function defaulting to the
empty set, which also absorbs the Python `setdefault(contact_id, set())`
no-ops), and the store.  Dry runs allocate negative pseudo-ids and never touch
the store. -/

structure Stats where
  contacts_added : Nat
  details_added : Nat
  contacts_skipped : Nat
  details_skipped : Nat
  rows_total : Nat
  rows_contact_processed : Nat
  rows_synth_processed : Nat
  rows_skipped_unknown_type : Nat
  rows_skipped_no_name : Nat
  rows_skipped_duplicate : Nat
deriving DecidableEq

def Stats.init : Stats := ⟨0, 0, 0, 0, 0, 0, 0, 0, 0, 0⟩

structure MState where
  stats : Stats
  name_to_contact_id : String → Option Int
  existing_details_map : Int → List String
  store : Store

/-- Add an element to a set-as-list (Python `set.add`). -/
def addIfAbsent (l : List String) (x : String) : List String :=
  if l.contains x then l else l ++ [x]

/-- Point update of the per-contact signature sets (`set.add` on one key). -/
def addSig (m : Int → List String) (i : Int) (x : String) : Int → List String :=
  fun j => if j = i then addIfAbsent (m i) x else m j

/-- The signature of a stored synthesized entry as loaded at batch start:
`f"{norm(row['category'])}|{norm(row['content'])}"`. -/
def detailSig (d : Detail) : String := pyStrip d.category ++ "|" ++ pyStrip d.content

/-- `name_to_contact_id` as loaded at batch start: a dictionary comprehension
over the in-scope contacts, later rows overwriting earlier ones. -/
def initNameMap (contacts : List Contact) : String → Option Int :=
  contacts.foldl
    (fun m c =>
      if c.inScope then (fun k => if k = contactKey c.full_name then some c.id else m k) else m)
    (fun _ => none)

/-- `existing_details_map` as loaded at batch start. -/
def initDetailsMap (details : List Detail) : Int → List String :=
  details.foldl (fun m d => addSig m d.contact_id (detailSig d)) (fun _ => [])

/-- `UPDATE contacts SET tier = ? WHERE id = ?`. -/
def updateTier (st : Store) (cid : Int) (tier : Int) : Store :=
  { st with contacts := st.contacts.map (fun c => if c.id = cid then { c with tier := tier } else c) }

/-- `INSERT INTO contacts (full_name, tier, user_id, ...) VALUES (?, ?, 1, ...)`
followed by `SELECT last_insert_rowid()`. -/
def insertContact (st : Store) (name : String) (tier : Int) : Int × Store :=
  (st.next_contact_id,
   { st with contacts := st.contacts ++ [⟨st.next_contact_id, name, tier, some 1⟩],
             next_contact_id := st.next_contact_id + 1 })

/-- Find-or-create of a contact by its lowercased key, shared verbatim between
the `CONTACT` pre-pass (app.py lines 4002-4034) and the lazy creation in the
detail loop (lines 4072-4087); only the statistics counters bumped afterwards
differ, so they stay at the call sites.  Returns the contact id (negative
pseudo-id in a dry run), whether the contact already existed, and the updated
state.  In the existing case the caller-supplied `existingTier` default (2 in
the pre-pass, 0 in the detail loop) feeds the `overwrite` tier policy; in a
dry run the tier conflict is only reported (the report list is not modelled). -/
def resolveContact (dry : Bool) (tierPolicy : String) (s : MState)
    (name : String) (tierRaw : String) (existingTierDefault : Int) : Int × Bool × MState :=
  let key := pyLower name
  match s.name_to_contact_id key with
  | some cid =>
    let tier_val := to_int_or existingTierDefault tierRaw
    let s :=
      if (tier_val = 1 ∨ tier_val = 2 ∨ tier_val = 3) ∧ tierPolicy = "overwrite" ∧ dry = false
      then { s with store := updateTier s.store cid tier_val }
      else s
    (cid, true, s)
  | none =>
    let tier_val := to_int_or 2 tierRaw
    let (cid, store) :=
      match dry with
      | true => (-((s.stats.contacts_added : Int) + 1), s.store)
      | false => insertContact s.store name tier_val
    let s := { s with
      store := store,
      name_to_contact_id := fun k => if k = key then some cid else s.name_to_contact_id k,
      stats := { s.stats with
        contacts_added := s.stats.contacts_added + 1,
        rows_contact_processed := s.stats.rows_contact_processed + 1 } }
    (cid, false, s)

/-- The body of one `CONTACT` pre-pass row after the unconditional
`rows_total` bump (app.py lines 3996-4034): non-`CONTACT` rows are passed
over; an empty resolved name is counted and skipped; an existing contact is
counted as skipped (with the tier policy applied via `resolveContact`);
otherwise the contact is created. -/
def contactRowStep (dry : Bool) (tierPolicy : String) (fieldnames : List String)
    (s : MState) (row : Row) : MState :=
  if classify_record_type (get_val fieldnames row "record_type") ≠ "CONTACT" then s
  else
    let name := pyStrip (get_val fieldnames row "contact_full_name")
    if name = "" then
      { s with stats := { s.stats with
          rows_skipped_no_name := s.stats.rows_skipped_no_name + 1 } }
    else
      let (_, existed, s) :=
        resolveContact dry tierPolicy s name (get_val fieldnames row "contact_tier") 2
      if existed then
        { s with stats := { s.stats with
            contacts_skipped := s.stats.contacts_skipped + 1 } }
      else s

/-- One row of the `CONTACT` pre-pass (app.py lines 3994-4034): every row
bumps `rows_total`, then the `CONTACT` handling runs. -/
def pass1Step (dry : Bool) (tierPolicy : String) (fieldnames : List String)
    (s : MState) (row : Row) : MState :=
  contactRowStep dry tierPolicy fieldnames
    { s with stats := { s.stats with rows_total := s.stats.rows_total + 1 } } row

/-- One normalized synthesized-detail row, as produced by
`iter_normalized_rows` (app.py lines 4037-4064).  The `confidence` and
`entry_date` fields are dropped: they cannot raise and only feed the two
omitted columns of the insert. -/
structure NRow where
  name : String
  tier : String
  category : String
  detail : String
deriving DecidableEq

/-- Normalization of a record-type row (app.py lines 4047-4054). -/
def extractRecordRow (fieldnames : List String) (row : Row) : NRow :=
  { name := pyStrip (get_val fieldnames row "contact_full_name"),
    tier := pyOrS (get_val fieldnames row "contact_tier") "2",
    category := pyStrip (get_val fieldnames row "category"),
    detail := pyStrip (get_val fieldnames row "detail_content") }

/-- Normalization of a legacy flat-format row (app.py lines 4056-4064); plain
`dict.get` with `or`-chained fallbacks, no fuzzy header resolution. -/
def extractSimpleRow (row : Row) : NRow :=
  { name := normO (pyOrO (rowGet row "Contact Full Name") (rowGet row "contact_full_name")),
    tier := (pyOrO (pyOrO (rowGet row "Contact Tier") (rowGet row "contact_tier"))
              (some "2")).getD "2",
    category := normO (pyOrO (rowGet row "Category") (rowGet row "category")),
    detail := normO (pyOrO (rowGet row "Detail/Fact") (rowGet row "detail_content")) }

/-- app.py lines 4108-4144: the detail part of the loop body, after the
contact has been resolved to `cid`: default an empty category to
`'Uncategorized'`, skip empty detail text, skip an already-known signature
under the `preserve` details policy, otherwise record the insert. -/
def insertDetailStep (dry : Bool) (detailsPolicy : String) (s : MState)
    (cid : Int) (r : NRow) : MState :=
  let detail_text := r.detail
  let category := pyOrS r.category "Uncategorized"
  if detail_text = "" then s
  else
    let sig := category ++ "|" ++ detail_text
    let is_dup := (s.existing_details_map cid).contains sig
    if is_dup ∧ detailsPolicy = "preserve" then
      { s with stats := { s.stats with
          details_skipped := s.stats.details_skipped + 1,
          rows_skipped_duplicate := s.stats.rows_skipped_duplicate + 1 } }
    else
      let s :=
        match dry with
        | true => { s with existing_details_map := addSig s.existing_details_map cid sig }
        | false =>
          { s with
            store := { s.store with
              details := s.store.details ++ [Detail.mk cid category detail_text] },
            existing_details_map := addSig s.existing_details_map cid sig }
      { s with stats := { s.stats with
          details_added := s.stats.details_added + 1,
          rows_synth_processed := s.stats.rows_synth_processed + 1 } }

/-- The body of the detail loop (app.py lines 4067-4144) for one normalized
row: resolve or lazily create the contact (counting an existing one as
skipped), then run the detail part. -/
def processNRow (dry : Bool) (tierPolicy detailsPolicy : String)
    (s : MState) (r : NRow) : MState :=
  if r.name = "" then
    { s with stats := { s.stats with
        rows_skipped_no_name := s.stats.rows_skipped_no_name + 1 } }
  else
    let (cid, existed, s) := resolveContact dry tierPolicy s r.name r.tier 0
    let s :=
      if existed then
        { s with stats := { s.stats with
            contacts_skipped := s.stats.contacts_skipped + 1,
            rows_synth_processed := s.stats.rows_synth_processed + 1 } }
      else s
    insertDetailStep dry detailsPolicy s cid r

/-- One row of the detail pass: in a record-type table an unknown type is
counted and anything but `SYNTHESIZED_DETAIL` passed over; a legacy table
treats every row as a detail row. -/
def pass2Step (dry : Bool) (tierPolicy detailsPolicy : String) (hasRT : Bool)
    (fieldnames : List String) (s : MState) (row : Row) : MState :=
  match hasRT with
  | true =>
    let rt := classify_record_type (get_val fieldnames row "record_type")
    if rt = "" then
      { s with stats := { s.stats with
          rows_skipped_unknown_type := s.stats.rows_skipped_unknown_type + 1 } }
    else if rt ≠ "SYNTHESIZED_DETAIL" then s
    else processNRow dry tierPolicy detailsPolicy s (extractRecordRow fieldnames row)
  | false => processNRow dry tierPolicy detailsPolicy s (extractSimpleRow row)

/-- The in-memory state loaded at batch start (app.py lines 3979-3990). -/
def initMState (store : Store) : MState :=
  { stats := Stats.init,
    name_to_contact_id := initNameMap store.contacts,
    existing_details_map := initDetailsMap store.details,
    store := store }

/-- The two passes of the engine over the rows: the `CONTACT` pre-pass (only
for record-type tables), then the detail pass. -/
def mergeEngine (dry : Bool) (tierPolicy detailsPolicy : String)
    (fieldnames : List String) (rows : List Row) (s0 : MState) : MState :=
  let hasRT := has_logical fieldnames "record_type"
  let s1 :=
    match hasRT with
    | true => rows.foldl (pass1Step dry tierPolicy fieldnames) s0
    | false => s0
  rows.foldl (pass2Step dry tierPolicy detailsPolicy hasRT fieldnames) s1

/-- The outcome of `run_merge_process`: its status string and the statistics
dictionary (the preview block and file echo carry no further engine state). -/
structure MergeResult where
  status : String
  stats : Stats
deriving DecidableEq

structure MergeOptions where
  dry_run : Bool
  policy_contact_tier : String
  policy_details : String
deriving DecidableEq

/-- app.py `run_merge_process` (lines 3882-4170) over parsed rows: the CSV
text is taken already split into its (raw) header list and row dictionaries —
`csv.DictReader` itself is outside the model.  Policies are defaulted and
lowercased as in the source; the `CONTACT` pre-pass runs only for record-type
tables; the detail pass runs over every row; a dry run returns status
`preview`, a completed run `success` (the model has no storage failures, so
the commit always succeeds). -/
def run_merge_process (store : Store) (rawFieldnames : List String)
    (rows : List Row) (opts : MergeOptions) : MergeResult × Store :=
  let fieldnames := rawFieldnames.map pyStrip
  let tierPolicy := pyLower (pyOrS opts.policy_contact_tier "preserve")
  let detailsPolicy := pyLower (pyOrS opts.policy_details "preserve")
  let s2 := mergeEngine opts.dry_run tierPolicy detailsPolicy fieldnames rows (initMState store)
  (⟨if opts.dry_run then "preview" else "success", s2.stats⟩, s2.store)

/-! ## app.py `merge_from_csv_endpoint` (lines 3813-3879) and the ledger -/

/-- A `file_imports` row (columns the endpoint consults; `stats_json` and
`file_name` are stored but never read back by this flow — `file_name` is kept
for the insert's faithfulness). -/
structure LedgerEntry where
  id : Nat
  user_id : Nat
  import_type : String
  file_name : String
  file_hash : String
  status : String
  created_at : String
deriving DecidableEq

structure Ledger where
  entries : List LedgerEntry
  next_id : Nat
deriving DecidableEq

/-- `SELECT id, created_at FROM file_imports WHERE import_type = 'csv_merge'
AND file_hash = ?` (first matching row). -/
def ledgerLookup (L : Ledger) (fileHash : String) : Option LedgerEntry :=
  L.entries.find? (fun e => e.import_type == "csv_merge" && e.file_hash == fileHash)

/-- `INSERT OR IGNORE INTO file_imports ...` under the unique
`(import_type, file_hash)` constraint. -/
def ledgerInsertIfAbsent (L : Ledger) (fileName fileHash now : String) : Ledger :=
  if L.entries.any (fun e => e.import_type == "csv_merge" && e.file_hash == fileHash) then L
  else
    { entries := L.entries ++ [⟨L.next_id, 1, "csv_merge", fileName, fileHash, "completed", now⟩],
      next_id := L.next_id + 1 }

/-- The endpoint's JSON response, restricted to the fields the claims consult. -/
structure EndpointResponse where
  status : String
  import_id : Option Nat
  imported_at : Option String
  stats : Option Stats
deriving DecidableEq

/-- The non-skipped leg of the endpoint: run the engine, then persist the
idempotency record on a successful non-dry run. -/
def endpointRun (L : Ledger) (store : Store) (fileName fileHash : String)
    (rawFieldnames : List String) (rows : List Row) (dry_run : Bool)
    (policy_contact_tier policy_details : String) (now : String) :
    EndpointResponse × Store × Ledger :=
  let (result, store1) :=
    run_merge_process store rawFieldnames rows ⟨dry_run, policy_contact_tier, policy_details⟩
  let L1 :=
    if dry_run = false ∧ result.status = "success"
    then ledgerInsertIfAbsent L fileName fileHash now
    else L
  (⟨result.status, none, none, some result.stats⟩, store1, L1)

/-- app.py `merge_from_csv_endpoint`: the SHA-256 fingerprint of the uploaded
bytes is an opaque input (`fileHash`); equal file content means equal hash.
The ledger is consulted unconditionally, but only a normal run (neither
`force` nor `dry_run`) acts on a hit, returning `skipped` with the original
id and timestamp of the import; `now` is the `CURRENT_TIMESTAMP` default of any row
this call inserts. -/
def merge_from_csv_endpoint (L : Ledger) (store : Store) (fileName fileHash : String)
    (rawFieldnames : List String) (rows : List Row) (dry_run force : Bool)
    (policy_contact_tier policy_details : String) (now : String) :
    EndpointResponse × Store × Ledger :=
  match ledgerLookup L fileHash with
  | some row =>
    if force = false ∧ dry_run = false then
      (⟨"skipped", some row.id, some row.created_at, none⟩, store, L)
    else
      endpointRun L store fileName fileHash rawFieldnames rows dry_run
        policy_contact_tier policy_details now
  | none =>
    endpointRun L store fileName fileHash rawFieldnames rows dry_run
      policy_contact_tier policy_details now

/-! ## Abstract engine state for the dry/wet simulation argument

Claim C2 (dry-run purity) is proved by refining both the dry and the wet run
onto one common abstract run that tracks only the statistics and, per
normalized contact key, the signature set of that contact — forgetting the
store and the concrete (real or pseudo) contact ids.  The abstraction map is
`alpha`; `InvW`/`InvD` are the well-formedness invariants that make the
concrete id handling invisible. -/

structure AState where
  stats : Stats
  sigsOf : String → Option (List String)

/-- Forget ids: a key is bound iff the name map binds it, and carries the
signature set of its contact. -/
def alpha (s : MState) : AState :=
  ⟨s.stats, fun k => (s.name_to_contact_id k).map s.existing_details_map⟩

/-- Abstract find-or-create: bind an unbound key to the empty signature set. -/
def aResolveContact (A : AState) (name : String) : Bool × AState :=
  match A.sigsOf (pyLower name) with
  | some _ => (true, A)
  | none =>
    (false,
     { stats := { A.stats with
         contacts_added := A.stats.contacts_added + 1,
         rows_contact_processed := A.stats.rows_contact_processed + 1 },
       sigsOf := fun k => if k = pyLower name then some [] else A.sigsOf k })

/-- Abstract counterpart of `contactRowStep`. -/
def aContactRowStep (fieldnames : List String) (A : AState) (row : Row) : AState :=
  if classify_record_type (get_val fieldnames row "record_type") ≠ "CONTACT" then A
  else
    let name := pyStrip (get_val fieldnames row "contact_full_name")
    if name = "" then
      { A with stats := { A.stats with
          rows_skipped_no_name := A.stats.rows_skipped_no_name + 1 } }
    else
      let r := aResolveContact A name
      if r.1 then
        { r.2 with stats := { r.2.stats with
            contacts_skipped := r.2.stats.contacts_skipped + 1 } }
      else r.2

/-- Abstract counterpart of `pass1Step`. -/
def aPass1Step (fieldnames : List String) (A : AState) (row : Row) : AState :=
  aContactRowStep fieldnames
    { A with stats := { A.stats with rows_total := A.stats.rows_total + 1 } } row

/-- Abstract counterpart of `insertDetailStep`, keyed by the contact key. -/
def aInsertDetailStep (detailsPolicy : String) (A : AState) (key : String)
    (r : NRow) : AState :=
  let sigs := (A.sigsOf key).getD []
  let category := pyOrS r.category "Uncategorized"
  if r.detail = "" then A
  else
    let sig := category ++ "|" ++ r.detail
    if sigs.contains sig ∧ detailsPolicy = "preserve" then
      { A with stats := { A.stats with
          details_skipped := A.stats.details_skipped + 1,
          rows_skipped_duplicate := A.stats.rows_skipped_duplicate + 1 } }
    else
      { stats := { A.stats with
          details_added := A.stats.details_added + 1,
          rows_synth_processed := A.stats.rows_synth_processed + 1 },
        sigsOf := fun k => if k = key then some (addIfAbsent sigs sig) else A.sigsOf k }

/-- Abstract counterpart of `processNRow`. -/
def aProcessNRow (detailsPolicy : String) (A : AState) (r : NRow) : AState :=
  if r.name = "" then
    { A with stats := { A.stats with
        rows_skipped_no_name := A.stats.rows_skipped_no_name + 1 } }
  else
    let res := aResolveContact A r.name
    let A2 :=
      if res.1 then
        { res.2 with stats := { res.2.stats with
            contacts_skipped := res.2.stats.contacts_skipped + 1,
            rows_synth_processed := res.2.stats.rows_synth_processed + 1 } }
      else res.2
    aInsertDetailStep detailsPolicy A2 (pyLower r.name) r

/-- Abstract counterpart of `pass2Step`. -/
def aPass2Step (detailsPolicy : String) (hasRT : Bool) (fieldnames : List String)
    (A : AState) (row : Row) : AState :=
  match hasRT with
  | true =>
    let rt := classify_record_type (get_val fieldnames row "record_type")
    if rt = "" then
      { A with stats := { A.stats with
          rows_skipped_unknown_type := A.stats.rows_skipped_unknown_type + 1 } }
    else if rt ≠ "SYNTHESIZED_DETAIL" then A
    else aProcessNRow detailsPolicy A (extractRecordRow fieldnames row)
  | false => aProcessNRow detailsPolicy A (extractSimpleRow row)

/-- Abstract counterpart of `mergeEngine`: the common run both the dry and the
wet engine refine onto. -/
def aMergeEngine (detailsPolicy : String) (fieldnames : List String)
    (rows : List Row) (A0 : AState) : AState :=
  let hasRT := has_logical fieldnames "record_type"
  let A1 :=
    match hasRT with
    | true => rows.foldl (aPass1Step fieldnames) A0
    | false => A0
  rows.foldl (aPass2Step detailsPolicy hasRT fieldnames) A1

/-- Well-formedness of a wet (non-dry) engine state: the name map is
injective, maps below the id allocator, and every unallocated id has an empty
signature set. -/
def InvW (s : MState) : Prop :=
  (∀ k1 k2 id, s.name_to_contact_id k1 = some id →
      s.name_to_contact_id k2 = some id → k1 = k2) ∧
  (∀ k id, s.name_to_contact_id k = some id → id < s.store.next_contact_id) ∧
  (∀ id, s.store.next_contact_id ≤ id → s.existing_details_map id = [])

/-- Well-formedness of a dry engine state: the name map is injective, binds
only nonnegative (pre-existing) ids or pseudo-ids in `[-contacts_added, -1]`,
and every unbound negative id has an empty signature set. -/
def InvD (s : MState) : Prop :=
  (∀ k1 k2 id, s.name_to_contact_id k1 = some id →
      s.name_to_contact_id k2 = some id → k1 = k2) ∧
  (∀ k id, s.name_to_contact_id k = some id →
      0 ≤ id ∨ (id < 0 ∧ -id ≤ (s.stats.contacts_added : Int))) ∧
  (∀ id, id < 0 → (∀ k, s.name_to_contact_id k ≠ some id) →
      s.existing_details_map id = [])

/-- Well-formedness of a store: contact ids are nonnegative, below the
allocator and pairwise distinct; detail rows point below the allocator at
nonnegative ids. -/
def Store.WF (st : Store) : Prop :=
  (∀ c ∈ st.contacts, 0 ≤ c.id ∧ c.id < st.next_contact_id) ∧
  List.Pairwise (fun a b => a.id ≠ b.id) st.contacts ∧
  (∀ d ∈ st.details, 0 ≤ d.contact_id ∧ d.contact_id < st.next_contact_id)

/-! ## Concrete inputs used by counterexamples and witnesses -/

def emptyStore : Store := ⟨[], [], 0⟩

def wetPreserve : MergeOptions := ⟨false, "preserve", "preserve"⟩

def wetAppend : MergeOptions := ⟨false, "preserve", "append"⟩

/-- Headers of the legacy flat CSV format. -/
def simpleFields : List String := ["Contact Full Name", "Contact Tier", "Category", "Detail/Fact"]

/-- A flat-format row whose category text is not a canonical token. -/
def vibesRow : Row :=
  [("Contact Full Name", "Alice"), ("Contact Tier", "2"),
   ("Category", "Vibes"), ("Detail/Fact", "met at work")]

/-- A store already holding the contact Alice and one synthesized entry. -/
def aliceStore : Store :=
  ⟨[⟨0, "Alice", 2, some 1⟩], [⟨0, "Social", "met at work"⟩], 1⟩

/-- A flat-format row duplicating the signature already present in
`aliceStore`. -/
def aliceDupRow : Row :=
  [("Contact Full Name", "Alice"), ("Contact Tier", "2"),
   ("Category", "Social"), ("Detail/Fact", "met at work")]

/-- The category text a processed detail row contributes to the store: the
trimmed input text, with `'Uncategorized'` substituted for blank — exactly the
`category = r['category'] or 'Uncategorized'` of app.py line 4109. -/
def rowCategoryText (hasRT : Bool) (fieldnames : List String) (row : Row) : String :=
  pyOrS (if hasRT then (extractRecordRow fieldnames row).category
         else (extractSimpleRow row).category) "Uncategorized"

/-- The (contact, signature) pairs of the stored synthesized entries.  The
dedup invariant of the engine is that this list has no duplicates. -/
def sigPairs (details : List Detail) : List (Int × String) :=
  details.map (fun d => (d.contact_id, detailSig d))

/-- The signature-uniqueness invariant carried through the detail loop: the
stored (contact, signature) pairs are pairwise distinct, and every stored pair
is present in the in-memory per-contact signature sets, so the duplicate check
of app.py line 4112 sees every entry already in the store. -/
def InvSig (s : MState) : Prop :=
  (sigPairs s.store.details).Nodup ∧
  ∀ d ∈ s.store.details,
    (s.existing_details_map d.contact_id).contains (detailSig d) = true

/-- The normalized keys of the in-scope contact rows, in store order. -/
def scopedKeys (st : Store) : List String :=
  (st.contacts.filter Contact.inScope).map (fun c => contactKey c.full_name)

/-- The contact-uniqueness invariant carried through both passes: the in-scope
normalized names are pairwise distinct, and every one of them is bound in the
in-memory name map, so the find-or-create lookup of app.py lines 4002/4069
always finds an existing in-scope contact before creating a new one. -/
def InvKey (s : MState) : Prop :=
  (scopedKeys s.store).Nodup ∧
  ∀ c ∈ s.store.contacts, c.inScope = true →
    (s.name_to_contact_id (contactKey c.full_name)).isSome = true

/-! ## Generic fold lemmas -/

set_option maxHeartbeats 4000000

theorem CATEGORY_ORDER_nodup : CATEGORY_ORDER.Nodup := by decide

/-- The lowercased canonical tokens are pairwise distinct, hence the Python
iteration over the unordered `VALID_CATEGORY_SET` in `canonicalize_category`
has at most one case-insensitive match and is order-independent; modelling it
as a `find?` over `CATEGORY_ORDER` is faithful. -/
theorem CATEGORY_ORDER_lower_nodup : (CATEGORY_ORDER.map pyLower).Nodup := by decide

/-- Invariant preservation along a left fold, with membership of the traversed
element available to the step lemma. -/
theorem foldl_inv {σ α : Type} (P : σ → Prop) (f : σ → α → σ) :
    ∀ (l : List α), (∀ s a, a ∈ l → P s → P (f s a)) →
      ∀ s, P s → P (l.foldl f s) := by
  intro l
  induction l with
  | nil => intro _ s hs; simpa using hs
  | cons a t ih =>
    intro h s hs
    simpa using ih (fun s b hb => h s b (List.mem_cons_of_mem a hb))
      (f s a) (h s a (List.mem_cons_self a t) hs)

/-- Simulation of a left fold through an abstraction function `g`, guarded by
an invariant `R` on the concrete states. -/
theorem foldl_sim {σ τ α : Type} (R : σ → Prop) (g : σ → τ)
    (f : σ → α → σ) (fa : τ → α → τ)
    (h : ∀ s a, R s → g (f s a) = fa (g s) a ∧ R (f s a)) :
    ∀ (l : List α) (s : σ), R s →
      g (l.foldl f s) = l.foldl fa (g s) ∧ R (l.foldl f s) := by
  intro l
  induction l with
  | nil => intro s hs; exact ⟨rfl, hs⟩
  | cons a t ih =>
    intro s hs
    obtain ⟨hg, hR⟩ := h s a hs
    obtain ⟨hg2, hR2⟩ := ih (f s a) hR
    exact ⟨by simpa [hg] using hg2, by simpa using hR2⟩

/-! ## Claims C8, C10: the Category Canonicalizer -/

/-- Claim C8: `canonicalize_category` is total (the model is a total Lean
function, mirroring code that can take no raising path) and closed: for every
input — any string, or a non-string — its result is a member of the fixed
canonical category list `CATEGORY_ORDER`. -/
theorem canonicalize_category_closure :
    ∀ v : CatInput, canonicalize_category v ∈ CATEGORY_ORDER := by
  intro v
  cases v with
  | nonString => decide
  | str s =>
    simp only [canonicalize_category]
    split
    · next h => simpa using h
    · split
      · next cat hfind => exact List.mem_of_find?_eq_some hfind
      · split
        · next p hfind =>
          split
          · decide
          · have hmem := List.mem_of_find?_eq_some hfind
            have hall : ∀ q ∈ SYNONYM_TO_CATEGORY, q.2 ∈ CATEGORY_ORDER := by decide
            exact hall p hmem
        · decide

/-- Claim C10: `canonicalize_category` fixes every canonical token without a
space, but sends the two space-carrying members of `CATEGORY_ORDER`
(`"Information gaps"`, `"Memory anchors"`) to the catch-all `"Others"`,
because the space-to-underscore normalization makes them miss every lookup
stage. -/
theorem canonicalize_category_space_gap :
    (∀ c ∈ CATEGORY_ORDER, c.data.contains ' ' = false →
        canonicalize_category (.str c) = c) ∧
    Categories.INFORMATION_GAPS ∈ CATEGORY_ORDER ∧
    Categories.MEMORY_ANCHORS ∈ CATEGORY_ORDER ∧
    canonicalize_category (.str Categories.INFORMATION_GAPS) = Categories.OTHERS ∧
    canonicalize_category (.str Categories.MEMORY_ANCHORS) = Categories.OTHERS := by
  refine ⟨by decide, by decide, by decide, by decide, by decide⟩

/-- Witness for C10 at the concrete token `"Actionable"`. -/
theorem canonicalize_category_space_gap_witness :
    Categories.ACTIONABLE ∈ CATEGORY_ORDER ∧
    Categories.ACTIONABLE.data.contains ' ' = false ∧
    canonicalize_category (.str Categories.ACTIONABLE) = Categories.ACTIONABLE :=
  ⟨by decide, by decide,
    canonicalize_category_space_gap.1 Categories.ACTIONABLE (by decide) (by decide)⟩

/-! ## Claim C9: résumé cue precedence in the heuristic classifier -/

/-- Claim C9: whenever no structural cue (e-mail/URL/linkedin) fires and the
text carries résumé vocabulary, `infer_category_from_text` returns the
professional-background token — the résumé stage strictly precedes the
actionable stage; and on the concrete input of the spec scenario the result
is `Professional_Background`, not `Actionable`. -/
theorem infer_category_resume_priority :
    (∀ text : String, structuralCue (pyLower text).data = false →
        resumeCue (pyLower text).data = true →
        infer_category_from_text text = Categories.PROFESSIONAL_BACKGROUND) ∧
    infer_category_from_text
        "Headed the orientation committee and organized data collection for AIESEC"
      = Categories.PROFESSIONAL_BACKGROUND := by
  constructor
  · intro text h1 h2
    have hne : ((pyLower text).data).isEmpty = false := by
      cases he : (pyLower text).data with
      | nil => rw [he] at h2; exact absurd h2 (by decide)
      | cons c l => simp
    simp only [infer_category_from_text, hne, h1, h2]
    simp
  · decide

/-- Witness for C9 at a second concrete input containing résumé vocabulary. -/
theorem infer_category_resume_priority_witness :
    structuralCue (pyLower "Works as a software engineer at a startup").data = false ∧
    resumeCue (pyLower "Works as a software engineer at a startup").data = true ∧
    infer_category_from_text "Works as a software engineer at a startup"
      = Categories.PROFESSIONAL_BACKGROUND :=
  ⟨by decide, by decide,
    infer_category_resume_priority.1 _ (by decide) (by decide)⟩

/-! ## Claims C1, C4, C6: counterexamples -/

/-- Counterexample to claim C1 (category closure): a non-dry merge of a flat
row whose category text is `"Vibes"` inserts a synthesized entry whose stored
category is `"Vibes"` — an arbitrary upstream string outside the fixed
20-token set.  `run_merge_process` never canonicalizes the category. -/
theorem merge_category_closure_cex :
    (run_merge_process emptyStore simpleFields [vibesRow] wetPreserve).2.details
        = [⟨0, "Vibes", "met at work"⟩] ∧
    Categories.OTHERS ∈ CATEGORY_ORDER ∧ "Vibes" ∉ CATEGORY_ORDER := by
  refine ⟨by decide, by decide, by decide⟩

/-- Counterexample to claim C4 (details policy has no behavioural effect): on
a store already holding the signature of the incoming row, the `append`
details policy inserts a second copy while `preserve` skips it — different
store mutations and different statistics. -/
theorem details_policy_effect_cex :
    (run_merge_process aliceStore simpleFields [aliceDupRow] wetAppend).2.details.length = 2 ∧
    (run_merge_process aliceStore simpleFields [aliceDupRow] wetPreserve).2.details.length = 1 ∧
    (run_merge_process aliceStore simpleFields [aliceDupRow] wetAppend).1.stats
      ≠ (run_merge_process aliceStore simpleFields [aliceDupRow] wetPreserve).1.stats := by
  refine ⟨by decide, by decide, by decide⟩

/-- Counterexample to claim C6 (ledger isolation of forced runs): a forced
non-dry upload over an empty ledger still records a ledger entry on success. -/
theorem forced_run_writes_ledger_cex :
    (merge_from_csv_endpoint ⟨[], 0⟩ emptyStore "a.csv" "h1" [] [] false true
        "preserve" "preserve" "t0").2.2
      = ⟨[⟨0, 1, "csv_merge", "a.csv", "h1", "completed", "t0"⟩], 1⟩ := by
  decide

/-! ## Claim C6 (amended): ledger isolation that does hold -/

/-- Claim C6 amended: a dry run leaves the ledger untouched and its response
and store are independent of the ledger's content; a forced run's response and
store are likewise independent of the ledger's content (only its ledger write
distinguishes it).  The fingerprint lookup itself is executed unconditionally
but is acted upon only by a normal run. -/
theorem ledger_isolation_amended :
    (∀ (L1 L2 : Ledger) (store : Store) (fn fh : String) (fns : List String)
        (rows : List Row) (force : Bool) (ptc pd now : String),
      (merge_from_csv_endpoint L1 store fn fh fns rows true force ptc pd now).1
        = (merge_from_csv_endpoint L2 store fn fh fns rows true force ptc pd now).1 ∧
      (merge_from_csv_endpoint L1 store fn fh fns rows true force ptc pd now).2.1
        = (merge_from_csv_endpoint L2 store fn fh fns rows true force ptc pd now).2.1 ∧
      (merge_from_csv_endpoint L1 store fn fh fns rows true force ptc pd now).2.2 = L1) ∧
    (∀ (L1 L2 : Ledger) (store : Store) (fn fh : String) (fns : List String)
        (rows : List Row) (dry : Bool) (ptc pd now : String),
      (merge_from_csv_endpoint L1 store fn fh fns rows dry true ptc pd now).1
        = (merge_from_csv_endpoint L2 store fn fh fns rows dry true ptc pd now).1 ∧
      (merge_from_csv_endpoint L1 store fn fh fns rows dry true ptc pd now).2.1
        = (merge_from_csv_endpoint L2 store fn fh fns rows dry true ptc pd now).2.1) := by
  constructor
  · intro L1 L2 store fn fh fns rows force ptc pd now
    refine ⟨?_, ?_, ?_⟩ <;>
      (simp only [merge_from_csv_endpoint, endpointRun] ;
       cases ledgerLookup L1 fh <;> cases ledgerLookup L2 fh <;> simp)
  · intro L1 L2 store fn fh fns rows dry ptc pd now
    refine ⟨?_, ?_⟩ <;>
      (simp only [merge_from_csv_endpoint, endpointRun] ;
       cases ledgerLookup L1 fh <;> cases ledgerLookup L2 fh <;> simp)

/-- Witness for the amended C6 at concrete inputs. -/
theorem ledger_isolation_amended_witness :
    (merge_from_csv_endpoint ⟨[⟨7, 1, "csv_merge", "b.csv", "h2", "completed", "t9"⟩], 8⟩
        emptyStore "b.csv" "h2" [] [] true false "preserve" "preserve" "t1").2.2
      = ⟨[⟨7, 1, "csv_merge", "b.csv", "h2", "completed", "t9"⟩], 8⟩ :=
  (ledger_isolation_amended.1 ⟨[⟨7, 1, "csv_merge", "b.csv", "h2", "completed", "t9"⟩], 8⟩
    ⟨[], 0⟩ emptyStore "b.csv" "h2" [] [] false "preserve" "preserve" "t1").2.2

/-! ## Claim C3: idempotence of repeated import -/

/-- A completed non-dry merge reports status `success` (the model has no
storage-failure path). -/
theorem run_merge_status_wet (store : Store) (fns : List String) (rows : List Row)
    (ptc pd : String) :
    (run_merge_process store fns rows ⟨false, ptc, pd⟩).1.status = "success" := rfl

/-- Claim C3: if a file content's fingerprint is not yet in the ledger, a
normal upload (`force=false`, `dry_run=false`) completes with `success`, and a
second upload of the same content returns `skipped` carrying the id and
timestamp of the first import, changing neither the store (zero additional
contact or detail entities) nor the ledger. -/
theorem import_idempotence (L : Ledger) (store : Store) (fn fh : String)
    (fns : List String) (rows : List Row) (ptc pd now1 now2 : String)
    (h : ledgerLookup L fh = none) :
    (merge_from_csv_endpoint L store fn fh fns rows false false ptc pd now1).1.status
        = "success" ∧
    (merge_from_csv_endpoint
        (merge_from_csv_endpoint L store fn fh fns rows false false ptc pd now1).2.2
        (merge_from_csv_endpoint L store fn fh fns rows false false ptc pd now1).2.1
        fn fh fns rows false false ptc pd now2)
      = (⟨"skipped", some L.next_id, some now1, none⟩,
         (merge_from_csv_endpoint L store fn fh fns rows false false ptc pd now1).2.1,
         (merge_from_csv_endpoint L store fn fh fns rows false false ptc pd now1).2.2) := by
  have hany : L.entries.any
      (fun e => e.import_type == "csv_merge" && e.file_hash == fh) = false := by
    rw [ledgerLookup, List.find?_eq_none] at h
    rw [List.any_eq_false]
    intro x hx
    simpa using h x hx
  rcases hrm : run_merge_process store fns rows ⟨false, ptc, pd⟩ with ⟨res, st1⟩
  have hst : res.status = "success" := by
    have h2 := run_merge_status_wet store fns rows ptc pd
    rw [hrm] at h2
    exact h2
  have h1 : merge_from_csv_endpoint L store fn fh fns rows false false ptc pd now1
      = (⟨"success", none, none, some res.stats⟩, st1,
         ⟨L.entries ++ [⟨L.next_id, 1, "csv_merge", fn, fh, "completed", now1⟩],
          L.next_id + 1⟩) := by
    simp only [merge_from_csv_endpoint, h, endpointRun, hrm, hst, ledgerInsertIfAbsent, hany]
    simp
  rw [h1]
  have hL1 : ledgerLookup
      ⟨L.entries ++ [⟨L.next_id, 1, "csv_merge", fn, fh, "completed", now1⟩], L.next_id + 1⟩ fh
      = some ⟨L.next_id, 1, "csv_merge", fn, fh, "completed", now1⟩ := by
    rw [ledgerLookup] at h ⊢
    simp only [List.find?_append, h]
    simp
  refine ⟨rfl, ?_⟩
  simp only [merge_from_csv_endpoint, hL1]
  simp

/-- Witness for C3 at concrete inputs: empty ledger, empty store, one flat row. -/
theorem import_idempotence_witness :
    ledgerLookup ⟨[], 0⟩ "h1" = none ∧
    (merge_from_csv_endpoint ⟨[], 0⟩ emptyStore "a.csv" "h1" simpleFields [vibesRow]
        false false "preserve" "preserve" "t1").1.status = "success" ∧
    (merge_from_csv_endpoint
        (merge_from_csv_endpoint ⟨[], 0⟩ emptyStore "a.csv" "h1" simpleFields [vibesRow]
            false false "preserve" "preserve" "t1").2.2
        (merge_from_csv_endpoint ⟨[], 0⟩ emptyStore "a.csv" "h1" simpleFields [vibesRow]
            false false "preserve" "preserve" "t1").2.1
        "a.csv" "h1" simpleFields [vibesRow] false false "preserve" "preserve" "t2").1.status
      = "skipped" := by
  refine ⟨by decide, ?_, ?_⟩
  · exact (import_idempotence ⟨[], 0⟩ emptyStore "a.csv" "h1" simpleFields [vibesRow]
      "preserve" "preserve" "t1" "t2" (by decide)).1
  · rw [(import_idempotence ⟨[], 0⟩ emptyStore "a.csv" "h1" simpleFields [vibesRow]
      "preserve" "preserve" "t1" "t2" (by decide)).2]

/-! ## String and map helper lemmas -/

theorem dropWhile_head_false {p : Char → Bool} {l : List Char} {c : Char} {t : List Char}
    (h : l.dropWhile p = c :: t) : p c = false := by
  induction l with
  | nil => simp at h
  | cons a m ih =>
    rw [List.dropWhile_cons] at h
    by_cases ha : p a
    · simp [ha] at h; exact ih h
    · simp [ha] at h; rw [← h.1]; simpa using ha

theorem dropWhile_eq_self_of_head {p : Char → Bool} {l : List Char}
    (h : ∀ c t, l = c :: t → p c = false) : l.dropWhile p = l := by
  cases l with
  | nil => rfl
  | cons c t => rw [List.dropWhile_cons]; simp [h c t rfl]

theorem pyStripList_idem (l : List Char) : pyStripList (pyStripList l) = pyStripList l := by
  unfold pyStripList
  generalize hA : l.dropWhile pyIsSpace = A
  generalize hC : A.reverse.dropWhile pyIsSpace = C
  cases hCc : C with
  | nil => simp
  | cons c0 ct =>
    have hc0 : pyIsSpace c0 = false := dropWhile_head_false (hCc ▸ hC)
    have hsplit : A.reverse = A.reverse.takeWhile pyIsSpace ++ C := by
      rw [← hC, List.takeWhile_append_dropWhile]
    have hArev : A = C.reverse ++ (A.reverse.takeWhile pyIsSpace).reverse := by
      have h2 := congrArg List.reverse hsplit
      simpa using h2
    have hhead : ∀ d u, C.reverse = d :: u → pyIsSpace d = false := by
      intro d u hdu
      have hAhead : ∃ t2, A = d :: t2 := by
        rw [hArev, hdu]; exact ⟨u ++ _, rfl⟩
      obtain ⟨t2, ht2⟩ := hAhead
      exact dropWhile_head_false (ht2 ▸ hA)
    have h1 : C.reverse.dropWhile pyIsSpace = C.reverse := dropWhile_eq_self_of_head hhead
    rw [← hCc, h1]
    have h2 : C.reverse.reverse.dropWhile pyIsSpace = C.reverse.reverse := by
      rw [List.reverse_reverse]
      refine dropWhile_eq_self_of_head ?_
      intro d u hdu
      rw [hCc] at hdu
      injection hdu with h3 h4
      rw [← h3]; exact hc0
    rw [h2, List.reverse_reverse]

theorem pyStrip_idem (s : String) : pyStrip (pyStrip s) = pyStrip s := by
  simp only [pyStrip]
  exact congrArg String.mk (pyStripList_idem s.data)

theorem addIfAbsent_contains {l : List String} {x y : String} :
    (addIfAbsent l x).contains y = true ↔ l.contains y = true ∨ y = x := by
  unfold addIfAbsent
  by_cases h : l.contains x
  · simp only [h, if_true]
    constructor
    · intro h2; exact Or.inl h2
    · rintro (h2 | rfl)
      · exact h2
      · exact h
  · simp only [h, if_false]
    simp

/-- Every binding of the initial name map comes from an in-scope contact row. -/
theorem initNameMap_some {contacts : List Contact} {k : String} {id : Int} :
    initNameMap contacts k = some id →
    ∃ c ∈ contacts, c.inScope = true ∧ contactKey c.full_name = k ∧ c.id = id := by
  unfold initNameMap
  suffices h : ∀ (l : List Contact) (m : String → Option Int),
      (l.foldl (fun m c =>
        if c.inScope then
          (fun k2 => if k2 = contactKey c.full_name then some c.id else m k2)
        else m) m) k = some id →
      (∃ c ∈ l, c.inScope = true ∧ contactKey c.full_name = k ∧ c.id = id) ∨ m k = some id by
    intro hh
    rcases h contacts (fun _ => none) hh with h2 | h2
    · exact h2
    · simp at h2
  intro l
  induction l with
  | nil => intro m hm; exact Or.inr hm
  | cons c t ih =>
    intro m hm
    rcases ih _ hm with h2 | h2
    · obtain ⟨c2, hc2, h3⟩ := h2
      exact Or.inl ⟨c2, List.mem_cons_of_mem c hc2, h3⟩
    · by_cases hs : c.inScope
      · simp only [hs, if_true] at h2
        by_cases hk : k = contactKey c.full_name
        · rw [hk] at h2; simp at h2
          exact Or.inl ⟨c, List.mem_cons_self c t, hs, hk.symm, h2⟩
        · simp only [hk, if_false] at h2
          exact Or.inr h2
      · simp only [hs] at h2
        simp at h2
        exact Or.inr h2

/-- An id no detail row points at keeps the empty signature set in the initial
details map. -/
theorem initDetailsMap_untouched {details : List Detail} {i : Int}
    (h : ∀ d ∈ details, d.contact_id ≠ i) : initDetailsMap details i = [] := by
  unfold initDetailsMap
  suffices hh : ∀ (l : List Detail) (m : Int → List String),
      (∀ d ∈ l, d.contact_id ≠ i) → (l.foldl (fun m d => addSig m d.contact_id (detailSig d)) m) i = m i by
    rw [hh details _ h]
  intro l
  induction l with
  | nil => intro m _; rfl
  | cons d t ih =>
    intro m hm
    rw [List.foldl_cons, ih _ (fun d2 hd2 => hm d2 (List.mem_cons_of_mem d hd2))]
    unfold addSig
    have : d.contact_id ≠ i := hm d (List.mem_cons_self d t)
    simp [Ne.symm this]

/-- Membership in the initial details map characterizes the stored signatures. -/
theorem initDetailsMap_contains {details : List Detail} {i : Int} {x : String} :
    (initDetailsMap details i).contains x = true ↔
      ∃ d ∈ details, d.contact_id = i ∧ detailSig d = x := by
  unfold initDetailsMap
  suffices hh : ∀ (l : List Detail) (m : Int → List String),
      ((l.foldl (fun m d => addSig m d.contact_id (detailSig d)) m) i).contains x = true ↔
        (m i).contains x = true ∨ ∃ d ∈ l, d.contact_id = i ∧ detailSig d = x by
    rw [hh details (fun _ => [])]
    simp
  intro l
  induction l with
  | nil => intro m; simp
  | cons d t ih =>
    intro m
    rw [List.foldl_cons, ih]
    unfold addSig
    by_cases hd : d.contact_id = i
    · subst hd
      simp only [if_pos rfl, if_true, eq_self_iff_true]
      rw [addIfAbsent_contains]
      constructor
      · rintro ((h | h) | h)
        · exact Or.inl h
        · exact Or.inr ⟨d, List.mem_cons_self d t, rfl, h.symm⟩
        · obtain ⟨d2, hd2, h2⟩ := h
          exact Or.inr ⟨d2, List.mem_cons_of_mem d hd2, h2⟩
      · rintro (h | ⟨d2, hd2, h2, h3⟩)
        · exact Or.inl (Or.inl h)
        · rcases List.mem_cons.1 hd2 with rfl | hd2t
          · exact Or.inl (Or.inr h3.symm)
          · exact Or.inr ⟨d2, hd2t, h2, h3⟩
    · have : i ≠ d.contact_id := Ne.symm hd
      simp only [if_neg this]
      constructor
      · rintro (h | h)
        · exact Or.inl h
        · obtain ⟨d2, hd2, h2⟩ := h
          exact Or.inr ⟨d2, List.mem_cons_of_mem d hd2, h2⟩
      · rintro (h | ⟨d2, hd2, h2, h3⟩)
        · exact Or.inl h
        · rcases List.mem_cons.1 hd2 with rfl | hd2t
          · exact absurd h2 hd
          · exact Or.inr ⟨d2, hd2t, h2, h3⟩

/-! ## Refinement of `resolveContact` onto the abstract state -/

theorem resolveContact_wet (tp : String) (s : MState) (name tierRaw : String) (dflt : Int)
    (h : InvW s) :
    InvW (resolveContact false tp s name tierRaw dflt).2.2 ∧
    alpha (resolveContact false tp s name tierRaw dflt).2.2
      = (aResolveContact (alpha s) name).2 ∧
    (resolveContact false tp s name tierRaw dflt).2.1
      = (aResolveContact (alpha s) name).1 ∧
    (resolveContact false tp s name tierRaw dflt).2.2.name_to_contact_id (pyLower name)
      = some (resolveContact false tp s name tierRaw dflt).1 ∧
    (resolveContact false tp s name tierRaw dflt).2.2.store.details = s.store.details := by
  obtain ⟨hinj, hlt, hfresh⟩ := h
  cases hk : s.name_to_contact_id (pyLower name) with
  | some cid =>
    have ha : (alpha s).sigsOf (pyLower name) = some (s.existing_details_map cid) := by
      simp [alpha, hk]
    simp only [resolveContact, aResolveContact, hk, ha]
    refine ⟨?_, ?_, ?_, ?_, ?_⟩
    · split
      · exact ⟨hinj, hlt, hfresh⟩
      · exact ⟨hinj, hlt, hfresh⟩
    · split <;> rfl
    · trivial
    · split <;> exact hk
    · split <;> rfl
  | none =>
    have ha : (alpha s).sigsOf (pyLower name) = none := by
      simp [alpha, hk]
    simp only [resolveContact, aResolveContact, hk, ha, insertContact]
    refine ⟨⟨?_, ?_, ?_⟩, ?_, trivial, ?_, trivial⟩
    · intro k1 k2 id h1 h2
      dsimp only at h1 h2
      by_cases e1 : k1 = pyLower name
      · rw [e1, if_pos rfl] at h1
        injection h1 with h1b
        by_cases e2 : k2 = pyLower name
        · rw [e1, e2]
        · rw [if_neg e2] at h2
          exfalso
          have h3 := hlt k2 id h2
          omega
      · rw [if_neg e1] at h1
        by_cases e2 : k2 = pyLower name
        · rw [e2, if_pos rfl] at h2
          injection h2 with h2b
          exfalso
          have h3 := hlt k1 id h1
          omega
        · rw [if_neg e2] at h2
          exact hinj k1 k2 id h1 h2
    · intro k id h1
      dsimp only at h1 ⊢
      by_cases e1 : k = pyLower name
      · rw [e1, if_pos rfl] at h1
        injection h1 with h1b
        omega
      · rw [if_neg e1] at h1
        have h3 := hlt k id h1
        omega
    · intro id hid
      dsimp only at hid ⊢
      exact hfresh id (by omega)
    · show AState.mk _ _ = AState.mk _ _
      rw [AState.mk.injEq]
      refine ⟨rfl, ?_⟩
      funext k
      dsimp only [alpha]
      by_cases e1 : k = pyLower name
      · rw [e1, if_pos rfl, if_pos rfl]
        simp [hfresh s.store.next_contact_id le_rfl]
      · rw [if_neg e1, if_neg e1]
    · dsimp only
      simp

theorem resolveContact_dry (tp : String) (s : MState) (name tierRaw : String) (dflt : Int)
    (h : InvD s) :
    InvD (resolveContact true tp s name tierRaw dflt).2.2 ∧
    alpha (resolveContact true tp s name tierRaw dflt).2.2
      = (aResolveContact (alpha s) name).2 ∧
    (resolveContact true tp s name tierRaw dflt).2.1
      = (aResolveContact (alpha s) name).1 ∧
    (resolveContact true tp s name tierRaw dflt).2.2.name_to_contact_id (pyLower name)
      = some (resolveContact true tp s name tierRaw dflt).1 ∧
    (resolveContact true tp s name tierRaw dflt).2.2.store = s.store := by
  obtain ⟨hinj, hrange, hfresh⟩ := h
  cases hk : s.name_to_contact_id (pyLower name) with
  | some cid =>
    have ha : (alpha s).sigsOf (pyLower name) = some (s.existing_details_map cid) := by
      simp [alpha, hk]
    simp only [resolveContact, aResolveContact, hk, ha]
    refine ⟨?_, ?_, ?_, ?_, ?_⟩
    · split
      · next hc => exact absurd hc.2.2 (by decide)
      · exact ⟨hinj, hrange, hfresh⟩
    · split
      · next hc => exact absurd hc.2.2 (by decide)
      · rfl
    · trivial
    · split
      · next hc => exact absurd hc.2.2 (by decide)
      · exact hk
    · split
      · next hc => exact absurd hc.2.2 (by decide)
      · rfl
  | none =>
    have ha : (alpha s).sigsOf (pyLower name) = none := by
      simp [alpha, hk]
    have hnotin : ∀ k, s.name_to_contact_id k ≠
        some (-((s.stats.contacts_added : Int) + 1)) := by
      intro k hcontra
      rcases hrange k _ hcontra with h1 | ⟨h1, h2⟩ <;> omega
    simp only [resolveContact, aResolveContact, hk, ha]
    refine ⟨⟨?_, ?_, ?_⟩, ?_, trivial, ?_, trivial⟩
    · intro k1 k2 id h1 h2
      dsimp only at h1 h2
      by_cases e1 : k1 = pyLower name
      · rw [e1, if_pos rfl] at h1
        injection h1 with h1b
        by_cases e2 : k2 = pyLower name
        · rw [e1, e2]
        · rw [if_neg e2] at h2
          exfalso
          rw [← h1b] at h2
          exact hnotin k2 h2
      · rw [if_neg e1] at h1
        by_cases e2 : k2 = pyLower name
        · rw [e2, if_pos rfl] at h2
          injection h2 with h2b
          exfalso
          rw [← h2b] at h1
          exact hnotin k1 h1
        · rw [if_neg e2] at h2
          exact hinj k1 k2 id h1 h2
    · intro k id h1
      dsimp only at h1 ⊢
      by_cases e1 : k = pyLower name
      · rw [e1, if_pos rfl] at h1
        injection h1 with h1b
        right
        constructor <;> omega
      · rw [if_neg e1] at h1
        rcases hrange k id h1 with h2 | ⟨h2, h3⟩
        · exact Or.inl h2
        · exact Or.inr ⟨h2, by omega⟩
    · intro id hid hnone
      dsimp only at hnone ⊢
      refine hfresh id hid ?_
      intro k hcontra
      by_cases e1 : k = pyLower name
      · rw [e1, hk] at hcontra
        exact Option.noConfusion hcontra
      · have h2 := hnone k
        rw [if_neg e1] at h2
        exact h2 hcontra
    · show AState.mk _ _ = AState.mk _ _
      rw [AState.mk.injEq]
      refine ⟨rfl, ?_⟩
      funext k
      dsimp only [alpha]
      by_cases e1 : k = pyLower name
      · rw [e1, if_pos rfl, if_pos rfl]
        have hdet : s.existing_details_map (-((s.stats.contacts_added : Int) + 1)) = [] :=
          hfresh _ (by omega) hnotin
        simp only [Option.map_some']
        rw [hdet]
      · rw [if_neg e1, if_neg e1]
    · dsimp only
      simp

theorem insertDetailStep_wet (dp : String) (s : MState) (cid : Int) (r : NRow)
    (key : String) (h : InvW s) (hkey : s.name_to_contact_id key = some cid) :
    InvW (insertDetailStep false dp s cid r) ∧
    alpha (insertDetailStep false dp s cid r) = aInsertDetailStep dp (alpha s) key r := by
  obtain ⟨hinj, hlt, hfresh⟩ := h
  have hsigs : (alpha s).sigsOf key = some (s.existing_details_map cid) := by
    simp [alpha, hkey]
  simp only [insertDetailStep, aInsertDetailStep, hsigs, Option.getD_some]
  by_cases hd : r.detail = ""
  · simp only [hd, if_pos rfl]
    exact ⟨⟨hinj, hlt, hfresh⟩, rfl⟩
  · simp only [if_neg hd]
    by_cases hC : ((s.existing_details_map cid).contains
        (pyOrS r.category "Uncategorized" ++ "|" ++ r.detail) = true ∧ dp = "preserve")
    · simp only [if_pos hC]
      exact ⟨⟨hinj, hlt, hfresh⟩, rfl⟩
    · simp only [if_neg hC]
      refine ⟨⟨hinj, hlt, ?_⟩, ?_⟩
      · intro id hid
        dsimp only at hid ⊢
        unfold addSig
        have hne : id ≠ cid := by
          have h3 := hlt key cid hkey
          omega
        rw [if_neg hne]
        exact hfresh id hid
      · show AState.mk _ _ = AState.mk _ _
        rw [AState.mk.injEq]
        refine ⟨rfl, ?_⟩
        funext k
        dsimp only [alpha]
        by_cases e1 : k = key
        · rw [e1, if_pos rfl, hkey]
          simp only [Option.map_some']
          unfold addSig
          rw [if_pos rfl]
        · rw [if_neg e1]
          cases hmk : s.name_to_contact_id k with
          | none => simp
          | some id =>
            simp only [Option.map_some']
            unfold addSig
            have hne : id ≠ cid := by
              intro hcontra
              rw [hcontra] at hmk
              exact e1 (hinj k key cid hmk hkey)
            rw [if_neg hne]

theorem insertDetailStep_dry (dp : String) (s : MState) (cid : Int) (r : NRow)
    (key : String) (h : InvD s) (hkey : s.name_to_contact_id key = some cid) :
    InvD (insertDetailStep true dp s cid r) ∧
    alpha (insertDetailStep true dp s cid r) = aInsertDetailStep dp (alpha s) key r ∧
    (insertDetailStep true dp s cid r).store = s.store := by
  obtain ⟨hinj, hrange, hfresh⟩ := h
  have hsigs : (alpha s).sigsOf key = some (s.existing_details_map cid) := by
    simp [alpha, hkey]
  simp only [insertDetailStep, aInsertDetailStep, hsigs, Option.getD_some]
  by_cases hd : r.detail = ""
  · simp only [hd, if_pos rfl]
    exact ⟨⟨hinj, hrange, hfresh⟩, by trivial, by trivial⟩
  · simp only [if_neg hd]
    by_cases hC : ((s.existing_details_map cid).contains
        (pyOrS r.category "Uncategorized" ++ "|" ++ r.detail) = true ∧ dp = "preserve")
    · simp only [if_pos hC]
      exact ⟨⟨hinj, hrange, hfresh⟩, by trivial, by trivial⟩
    · simp only [if_neg hC]
      refine ⟨⟨hinj, hrange, ?_⟩, ?_, by trivial⟩
      · intro id hid hnone
        dsimp only at hnone ⊢
        unfold addSig
        have hne : id ≠ cid := by
          intro hcontra
          rw [hcontra] at hnone
          exact hnone key hkey
        rw [if_neg hne]
        exact hfresh id hid hnone
      · show AState.mk _ _ = AState.mk _ _
        rw [AState.mk.injEq]
        refine ⟨rfl, ?_⟩
        funext k
        dsimp only [alpha]
        by_cases e1 : k = key
        · rw [e1, if_pos rfl, hkey]
          simp only [Option.map_some']
          unfold addSig
          rw [if_pos rfl]
        · rw [if_neg e1]
          cases hmk : s.name_to_contact_id k with
          | none => simp
          | some id =>
            simp only [Option.map_some']
            unfold addSig
            have hne : id ≠ cid := by
              intro hcontra
              rw [hcontra] at hmk
              exact e1 (hinj k key cid hmk hkey)
            rw [if_neg hne]

theorem processNRow_wet (tp dp : String) (s : MState) (r : NRow) (h : InvW s) :
    InvW (processNRow false tp dp s r) ∧
    alpha (processNRow false tp dp s r) = aProcessNRow dp (alpha s) r := by
  by_cases hn : r.name = ""
  · simp only [processNRow, aProcessNRow, hn, if_pos rfl]
    exact ⟨⟨h.1, h.2.1, h.2.2⟩, rfl⟩
  · simp only [processNRow, aProcessNRow, if_neg hn]
    have R := resolveContact_wet tp s r.name r.tier 0 h
    rcases hrc : resolveContact false tp s r.name r.tier 0 with ⟨cid, existed, s1⟩
    rcases hra : aResolveContact (alpha s) r.name with ⟨aex, A1⟩
    rw [hrc, hra] at R
    dsimp only at R
    obtain ⟨hI1, hα1, hb1, hkey1, hdet1⟩ := R
    subst hb1
    subst hα1
    cases existed with
    | true =>
      dsimp only
      simp only [eq_self_iff_true, if_true]
      refine ⟨(insertDetailStep_wet dp _ cid r (pyLower r.name) ?_ ?_).1,
             (insertDetailStep_wet dp _ cid r (pyLower r.name) ?_ ?_).2⟩
      · exact hI1
      · exact hkey1
      · exact hI1
      · exact hkey1
    | false =>
      dsimp only
      refine ⟨(insertDetailStep_wet dp _ cid r (pyLower r.name) ?_ ?_).1,
             (insertDetailStep_wet dp _ cid r (pyLower r.name) ?_ ?_).2⟩
      · exact hI1
      · exact hkey1
      · exact hI1
      · exact hkey1

theorem processNRow_dry (tp dp : String) (s : MState) (r : NRow) (h : InvD s) :
    InvD (processNRow true tp dp s r) ∧
    alpha (processNRow true tp dp s r) = aProcessNRow dp (alpha s) r ∧
    (processNRow true tp dp s r).store = s.store := by
  by_cases hn : r.name = ""
  · simp only [processNRow, aProcessNRow, hn, if_pos rfl]
    exact ⟨⟨h.1, h.2.1, h.2.2⟩, rfl, rfl⟩
  · simp only [processNRow, aProcessNRow, if_neg hn]
    have R := resolveContact_dry tp s r.name r.tier 0 h
    rcases hrc : resolveContact true tp s r.name r.tier 0 with ⟨cid, existed, s1⟩
    rcases hra : aResolveContact (alpha s) r.name with ⟨aex, A1⟩
    rw [hrc, hra] at R
    dsimp only at R
    obtain ⟨hI1, hα1, hb1, hkey1, hst1⟩ := R
    subst hb1
    subst hα1
    cases existed with
    | true =>
      dsimp only
      simp only [eq_self_iff_true, if_true]
      refine ⟨(insertDetailStep_dry dp _ cid r (pyLower r.name) ?_ ?_).1,
             (insertDetailStep_dry dp _ cid r (pyLower r.name) ?_ ?_).2.1,
             ((insertDetailStep_dry dp _ cid r (pyLower r.name) ?_ ?_).2.2).trans hst1⟩
      · exact hI1
      · exact hkey1
      · exact hI1
      · exact hkey1
      · exact hI1
      · exact hkey1
    | false =>
      dsimp only
      refine ⟨(insertDetailStep_dry dp _ cid r (pyLower r.name) ?_ ?_).1,
             (insertDetailStep_dry dp _ cid r (pyLower r.name) ?_ ?_).2.1,
             ((insertDetailStep_dry dp _ cid r (pyLower r.name) ?_ ?_).2.2).trans hst1⟩
      · exact hI1
      · exact hkey1
      · exact hI1
      · exact hkey1
      · exact hI1
      · exact hkey1

/-! ## Refinement of the passes and the engine -/

theorem contactRowStep_wet (tp : String) (fns : List String) (s : MState) (row : Row)
    (h : InvW s) :
    InvW (contactRowStep false tp fns s row) ∧
    alpha (contactRowStep false tp fns s row) = aContactRowStep fns (alpha s) row := by
  simp only [contactRowStep, aContactRowStep]
  by_cases hc : classify_record_type (get_val fns row "record_type") ≠ "CONTACT"
  · simp only [if_pos hc]
    exact ⟨h, by trivial⟩
  · simp only [if_neg hc]
    by_cases hname : pyStrip (get_val fns row "contact_full_name") = ""
    · simp only [hname, if_pos rfl]
      exact ⟨⟨h.1, h.2.1, h.2.2⟩, by trivial⟩
    · simp only [if_neg hname]
      have R := resolveContact_wet tp s (pyStrip (get_val fns row "contact_full_name"))
        (get_val fns row "contact_tier") 2 h
      rcases hrc : resolveContact false tp s (pyStrip (get_val fns row "contact_full_name"))
          (get_val fns row "contact_tier") 2 with ⟨cid, existed, s1⟩
      rcases hra : aResolveContact (alpha s)
          (pyStrip (get_val fns row "contact_full_name")) with ⟨aex, A1⟩
      rw [hrc, hra] at R
      dsimp only at R
      obtain ⟨hI1, hα1, hb1, hkey1, hdet1⟩ := R
      subst hb1
      subst hα1
      cases existed with
      | true =>
        dsimp only
        exact ⟨hI1, rfl⟩
      | false =>
        dsimp only
        exact ⟨hI1, rfl⟩

theorem contactRowStep_dry (tp : String) (fns : List String) (s : MState) (row : Row)
    (h : InvD s) :
    InvD (contactRowStep true tp fns s row) ∧
    alpha (contactRowStep true tp fns s row) = aContactRowStep fns (alpha s) row ∧
    (contactRowStep true tp fns s row).store = s.store := by
  simp only [contactRowStep, aContactRowStep]
  by_cases hc : classify_record_type (get_val fns row "record_type") ≠ "CONTACT"
  · simp only [if_pos hc]
    exact ⟨h, by trivial, by trivial⟩
  · simp only [if_neg hc]
    by_cases hname : pyStrip (get_val fns row "contact_full_name") = ""
    · simp only [hname, if_pos rfl]
      exact ⟨⟨h.1, h.2.1, h.2.2⟩, by trivial, by trivial⟩
    · simp only [if_neg hname]
      have R := resolveContact_dry tp s (pyStrip (get_val fns row "contact_full_name"))
        (get_val fns row "contact_tier") 2 h
      rcases hrc : resolveContact true tp s (pyStrip (get_val fns row "contact_full_name"))
          (get_val fns row "contact_tier") 2 with ⟨cid, existed, s1⟩
      rcases hra : aResolveContact (alpha s)
          (pyStrip (get_val fns row "contact_full_name")) with ⟨aex, A1⟩
      rw [hrc, hra] at R
      dsimp only at R
      obtain ⟨hI1, hα1, hb1, hkey1, hst1⟩ := R
      subst hb1
      subst hα1
      cases existed with
      | true =>
        dsimp only
        exact ⟨⟨hI1.1, hI1.2.1, hI1.2.2⟩, rfl, hst1⟩
      | false =>
        dsimp only
        exact ⟨hI1, rfl, hst1⟩

theorem pass1Step_wet (tp : String) (fns : List String) (s : MState) (row : Row)
    (h : InvW s) :
    InvW (pass1Step false tp fns s row) ∧
    alpha (pass1Step false tp fns s row) = aPass1Step fns (alpha s) row := by
  simp only [pass1Step, aPass1Step]
  refine ⟨(contactRowStep_wet tp fns _ row ?_).1, (contactRowStep_wet tp fns _ row ?_).2⟩
  · exact ⟨h.1, h.2.1, h.2.2⟩
  · exact ⟨h.1, h.2.1, h.2.2⟩

theorem pass1Step_dry (tp : String) (fns : List String) (s : MState) (row : Row)
    (h : InvD s) :
    InvD (pass1Step true tp fns s row) ∧
    alpha (pass1Step true tp fns s row) = aPass1Step fns (alpha s) row ∧
    (pass1Step true tp fns s row).store = s.store := by
  simp only [pass1Step, aPass1Step]
  refine ⟨(contactRowStep_dry tp fns _ row ?_).1, (contactRowStep_dry tp fns _ row ?_).2.1,
    (contactRowStep_dry tp fns _ row ?_).2.2⟩
  · exact ⟨h.1, h.2.1, h.2.2⟩
  · exact ⟨h.1, h.2.1, h.2.2⟩
  · exact ⟨h.1, h.2.1, h.2.2⟩

theorem pass2Step_wet (tp dp : String) (hasRT : Bool) (fns : List String)
    (s : MState) (row : Row) (h : InvW s) :
    InvW (pass2Step false tp dp hasRT fns s row) ∧
    alpha (pass2Step false tp dp hasRT fns s row) = aPass2Step dp hasRT fns (alpha s) row := by
  cases hasRT with
  | false =>
    simp only [pass2Step, aPass2Step]
    exact ⟨(processNRow_wet tp dp s _ h).1, (processNRow_wet tp dp s _ h).2⟩
  | true =>
    simp only [pass2Step, aPass2Step]
    by_cases h1 : classify_record_type (get_val fns row "record_type") = ""
    · simp only [h1, if_pos rfl]
      exact ⟨⟨h.1, h.2.1, h.2.2⟩, by trivial⟩
    · simp only [if_neg h1]
      by_cases h2 : classify_record_type (get_val fns row "record_type") ≠ "SYNTHESIZED_DETAIL"
      · simp only [if_pos h2]
        exact ⟨h, by trivial⟩
      · simp only [if_neg h2]
        exact ⟨(processNRow_wet tp dp s _ h).1, (processNRow_wet tp dp s _ h).2⟩

theorem pass2Step_dry (tp dp : String) (hasRT : Bool) (fns : List String)
    (s : MState) (row : Row) (h : InvD s) :
    InvD (pass2Step true tp dp hasRT fns s row) ∧
    alpha (pass2Step true tp dp hasRT fns s row) = aPass2Step dp hasRT fns (alpha s) row ∧
    (pass2Step true tp dp hasRT fns s row).store = s.store := by
  cases hasRT with
  | false =>
    simp only [pass2Step, aPass2Step]
    exact ⟨(processNRow_dry tp dp s _ h).1, (processNRow_dry tp dp s _ h).2.1,
      (processNRow_dry tp dp s _ h).2.2⟩
  | true =>
    simp only [pass2Step, aPass2Step]
    by_cases h1 : classify_record_type (get_val fns row "record_type") = ""
    · simp only [h1, if_pos rfl]
      exact ⟨⟨h.1, h.2.1, h.2.2⟩, by trivial, by trivial⟩
    · simp only [if_neg h1]
      by_cases h2 : classify_record_type (get_val fns row "record_type") ≠ "SYNTHESIZED_DETAIL"
      · simp only [if_pos h2]
        exact ⟨h, by trivial, by trivial⟩
      · simp only [if_neg h2]
        exact ⟨(processNRow_dry tp dp s _ h).1, (processNRow_dry tp dp s _ h).2.1,
          (processNRow_dry tp dp s _ h).2.2⟩

theorem mergeEngine_wet (tp dp : String) (fns : List String) (rows : List Row)
    (s0 : MState) (h : InvW s0) :
    alpha (mergeEngine false tp dp fns rows s0) = aMergeEngine dp fns rows (alpha s0) ∧
    InvW (mergeEngine false tp dp fns rows s0) := by
  simp only [mergeEngine, aMergeEngine]
  cases hrt : has_logical fns "record_type" with
  | false =>
    exact foldl_sim InvW alpha _ _
      (fun s a hs => ⟨(pass2Step_wet tp dp false fns s a hs).2,
        (pass2Step_wet tp dp false fns s a hs).1⟩) rows s0 h
  | true =>
    have F1 := foldl_sim InvW alpha (pass1Step false tp fns) (aPass1Step fns)
      (fun s a hs => ⟨(pass1Step_wet tp fns s a hs).2, (pass1Step_wet tp fns s a hs).1⟩)
      rows s0 h
    have F2 := foldl_sim InvW alpha (pass2Step false tp dp true fns) (aPass2Step dp true fns)
      (fun s a hs => ⟨(pass2Step_wet tp dp true fns s a hs).2,
        (pass2Step_wet tp dp true fns s a hs).1⟩)
      rows (rows.foldl (pass1Step false tp fns) s0) F1.2
    refine ⟨?_, F2.2⟩
    rw [F2.1, F1.1]

theorem mergeEngine_dry (tp dp : String) (fns : List String) (rows : List Row)
    (s0 : MState) (h : InvD s0) :
    alpha (mergeEngine true tp dp fns rows s0) = aMergeEngine dp fns rows (alpha s0) ∧
    (mergeEngine true tp dp fns rows s0).store = s0.store := by
  simp only [mergeEngine, aMergeEngine]
  cases hrt : has_logical fns "record_type" with
  | false =>
    have F := foldl_sim (fun s => InvD s ∧ s.store = s0.store) alpha _ _
      (fun s a hs => ⟨(pass2Step_dry tp dp false fns s a hs.1).2.1,
        (pass2Step_dry tp dp false fns s a hs.1).1,
        ((pass2Step_dry tp dp false fns s a hs.1).2.2).trans hs.2⟩) rows s0 ⟨h, rfl⟩
    exact ⟨F.1, F.2.2⟩
  | true =>
    have F1 := foldl_sim (fun s => InvD s ∧ s.store = s0.store) alpha
      (pass1Step true tp fns) (aPass1Step fns)
      (fun s a hs => ⟨(pass1Step_dry tp fns s a hs.1).2.1,
        (pass1Step_dry tp fns s a hs.1).1,
        ((pass1Step_dry tp fns s a hs.1).2.2).trans hs.2⟩)
      rows s0 ⟨h, rfl⟩
    have F2 := foldl_sim (fun s => InvD s ∧ s.store = s0.store) alpha
      (pass2Step true tp dp true fns) (aPass2Step dp true fns)
      (fun s a hs => ⟨(pass2Step_dry tp dp true fns s a hs.1).2.1,
        (pass2Step_dry tp dp true fns s a hs.1).1,
        ((pass2Step_dry tp dp true fns s a hs.1).2.2).trans hs.2⟩)
      rows (rows.foldl (pass1Step true tp fns) s0) F1.2
    refine ⟨?_, F2.2.2⟩
    rw [F2.1, F1.1]

/-- The initial state satisfies the wet invariant on a well-formed store. -/
theorem initMState_InvW (store : Store) (h : Store.WF store) : InvW (initMState store) := by
  obtain ⟨hcb, hcpw, hdb⟩ := h
  refine ⟨?_, ?_, ?_⟩
  · intro k1 k2 id h1 h2
    obtain ⟨c1, hm1, hs1, hk1, hi1⟩ := initNameMap_some h1
    obtain ⟨c2, hm2, hs2, hk2, hi2⟩ := initNameMap_some h2
    by_cases hcc : c1 = c2
    · rw [← hk1, ← hk2, hcc]
    · exfalso
      have hne : c1.id ≠ c2.id :=
        List.Pairwise.forall (fun a b hab => Ne.symm hab) hcpw hm1 hm2 hcc
      rw [hi1, hi2] at hne
      exact hne rfl
  · intro k id h1
    dsimp only [initMState]
    obtain ⟨c1, hm1, hs1, hk1, hi1⟩ := initNameMap_some h1
    have := (hcb c1 hm1).2
    omega
  · intro id hid
    dsimp only [initMState] at hid
    refine initDetailsMap_untouched ?_
    intro d hd
    have := (hdb d hd).2
    omega

/-- The initial state satisfies the dry invariant on a well-formed store. -/
theorem initMState_InvD (store : Store) (h : Store.WF store) : InvD (initMState store) := by
  obtain ⟨hcb, hcpw, hdb⟩ := h
  refine ⟨?_, ?_, ?_⟩
  · intro k1 k2 id h1 h2
    exact (initMState_InvW store ⟨hcb, hcpw, hdb⟩).1 k1 k2 id h1 h2
  · intro k id h1
    obtain ⟨c1, hm1, hs1, hk1, hi1⟩ := initNameMap_some h1
    have := (hcb c1 hm1).1
    omega
  · intro id hid hnone
    refine initDetailsMap_untouched ?_
    intro d hd
    have := (hdb d hd).1
    omega

/-! ## Claim C2: dry-run purity -/

/-- Claim C2: on a well-formed store, a dry run of `run_merge_process` leaves
the store untouched, and the statistics counters it returns are exactly those
the same call with `dry_run=false` produces from the same initial store. -/
theorem run_merge_dry_run_purity (store : Store) (fns : List String) (rows : List Row)
    (ptc pd : String) (hWF : Store.WF store) :
    (run_merge_process store fns rows ⟨true, ptc, pd⟩).2 = store ∧
    (run_merge_process store fns rows ⟨true, ptc, pd⟩).1.stats
      = (run_merge_process store fns rows ⟨false, ptc, pd⟩).1.stats := by
  have HD := mergeEngine_dry (pyLower (pyOrS ptc "preserve")) (pyLower (pyOrS pd "preserve"))
    (fns.map pyStrip) rows (initMState store) (initMState_InvD store hWF)
  have HW := mergeEngine_wet (pyLower (pyOrS ptc "preserve")) (pyLower (pyOrS pd "preserve"))
    (fns.map pyStrip) rows (initMState store) (initMState_InvW store hWF)
  constructor
  · exact HD.2
  · exact congrArg AState.stats (HD.1.trans HW.1.symm)

/-- Witness for C2 at concrete inputs. -/
theorem run_merge_dry_run_purity_witness :
    (run_merge_process emptyStore simpleFields [vibesRow] ⟨true, "preserve", "preserve"⟩).2
        = emptyStore ∧
    (run_merge_process emptyStore simpleFields [vibesRow]
        ⟨true, "preserve", "preserve"⟩).1.stats
      = (run_merge_process emptyStore simpleFields [vibesRow]
          ⟨false, "preserve", "preserve"⟩).1.stats :=
  run_merge_dry_run_purity emptyStore simpleFields [vibesRow] "preserve" "preserve"
    (by refine ⟨?_, ?_, ?_⟩ <;> decide)

/-! ## Claim C4 (amended): the details policy acts only on duplicate rows -/

theorem foldl_pres {σ α : Type} (m : σ → Nat) (f : σ → α → σ)
    (hstep : ∀ s a, m (f s a) = m s) :
    ∀ (l : List α) (s : σ), m (l.foldl f s) = m s := by
  intro l
  induction l with
  | nil => intro s; rfl
  | cons a t ih => intro s; rw [List.foldl_cons, ih, hstep]

theorem foldl_mono {σ α : Type} (m : σ → Nat) (f : σ → α → σ)
    (hstep : ∀ s a, m s ≤ m (f s a)) :
    ∀ (l : List α) (s : σ), m s ≤ m (l.foldl f s) := by
  intro l
  induction l with
  | nil => intro s; exact le_rfl
  | cons a t ih =>
    intro s
    rw [List.foldl_cons]
    exact le_trans (hstep s a) (ih (f s a))

/-- Two folds agree when their steps agree on every state whose step does not
raise the measure, and the measure of the whole reference fold stays put. -/
theorem foldl_policy {σ α : Type} (m : σ → Nat) (f g : σ → α → σ)
    (hmono : ∀ s a, m s ≤ m (g s a))
    (hstep : ∀ s a, m (g s a) = m s → f s a = g s a) :
    ∀ (l : List α) (s : σ), m (l.foldl g s) = m s → l.foldl f s = l.foldl g s := by
  intro l
  induction l with
  | nil => intro s _; rfl
  | cons a t ih =>
    intro s hm
    rw [List.foldl_cons] at hm ⊢
    rw [List.foldl_cons]
    have h1 : m s ≤ m (g s a) := hmono s a
    have h2 : m (g s a) ≤ m (t.foldl g (g s a)) := foldl_mono m g hmono t (g s a)
    have h3 : m (g s a) = m s := by omega
    rw [hstep s a h3]
    exact ih (g s a) (by omega)

theorem resolveContact_dup (dry : Bool) (tp : String) (s : MState)
    (name tierRaw : String) (dflt : Int) :
    ((resolveContact dry tp s name tierRaw dflt).2.2).stats.rows_skipped_duplicate
      = s.stats.rows_skipped_duplicate := by
  simp only [resolveContact]
  cases hk : s.name_to_contact_id (pyLower name)
  · rfl
  · dsimp only
    split <;> rfl

theorem insertDetailStep_dup_mono (dry : Bool) (dp : String) (s : MState)
    (cid : Int) (r : NRow) :
    s.stats.rows_skipped_duplicate
      ≤ (insertDetailStep dry dp s cid r).stats.rows_skipped_duplicate := by
  unfold insertDetailStep
  dsimp only
  split
  · exact le_rfl
  · split
    · dsimp only; omega
    · cases dry <;> dsimp only <;> exact le_rfl

theorem contactRowStep_dup (dry : Bool) (tp : String) (fns : List String)
    (s : MState) (row : Row) :
    (contactRowStep dry tp fns s row).stats.rows_skipped_duplicate
      = s.stats.rows_skipped_duplicate := by
  simp only [contactRowStep]
  split
  · rfl
  · split
    · rfl
    · rcases hrc : resolveContact dry tp s (pyStrip (get_val fns row "contact_full_name"))
          (get_val fns row "contact_tier") 2 with ⟨cid, ex, s1⟩
      have hd := resolveContact_dup dry tp s (pyStrip (get_val fns row "contact_full_name"))
        (get_val fns row "contact_tier") 2
      rw [hrc] at hd
      dsimp only at hd ⊢
      split
      · dsimp only
        exact hd
      · exact hd

theorem pass1Step_dup (dry : Bool) (tp : String) (fns : List String)
    (s : MState) (row : Row) :
    (pass1Step dry tp fns s row).stats.rows_skipped_duplicate
      = s.stats.rows_skipped_duplicate := by
  unfold pass1Step
  exact contactRowStep_dup dry tp fns _ row

theorem processNRow_dup_mono (dry : Bool) (tp dp : String) (s : MState) (r : NRow) :
    s.stats.rows_skipped_duplicate
      ≤ (processNRow dry tp dp s r).stats.rows_skipped_duplicate := by
  unfold processNRow
  split
  · exact le_rfl
  · rcases hrc : resolveContact dry tp s r.name r.tier 0 with ⟨cid, ex, s1⟩
    have hd := resolveContact_dup dry tp s r.name r.tier 0
    rw [hrc] at hd
    dsimp only at hd ⊢
    split
    · refine le_trans ?_ (insertDetailStep_dup_mono dry dp _ cid r)
      dsimp only
      omega
    · refine le_trans ?_ (insertDetailStep_dup_mono dry dp _ cid r)
      omega

theorem pass2Step_dup_mono (dry : Bool) (tp dp : String) (hasRT : Bool)
    (fns : List String) (s : MState) (row : Row) :
    s.stats.rows_skipped_duplicate
      ≤ (pass2Step dry tp dp hasRT fns s row).stats.rows_skipped_duplicate := by
  cases hasRT <;> unfold pass2Step <;> dsimp only
  · exact processNRow_dup_mono dry tp dp s _
  · split
    · exact le_rfl
    · split
      · exact le_rfl
      · exact processNRow_dup_mono dry tp dp s _

theorem insertDetailStep_policy (dp : String) (s : MState) (cid : Int) (r : NRow)
    (h : (insertDetailStep false "preserve" s cid r).stats.rows_skipped_duplicate
        = s.stats.rows_skipped_duplicate) :
    insertDetailStep false dp s cid r = insertDetailStep false "preserve" s cid r := by
  unfold insertDetailStep at h ⊢
  dsimp only at h ⊢
  by_cases hd : r.detail = ""
  · simp only [hd, eq_self_iff_true, if_true]
  · simp only [if_neg hd] at h ⊢
    by_cases hdup : (s.existing_details_map cid).contains
        (pyOrS r.category "Uncategorized" ++ "|" ++ r.detail) = true
    · exfalso
      rw [if_pos ⟨hdup, trivial⟩] at h
      dsimp only at h
      omega
    · rw [if_neg (fun hc => hdup hc.1), if_neg (fun hc => hdup hc.1)]

theorem processNRow_policy (tp dp : String) (s : MState) (r : NRow)
    (h : (processNRow false tp "preserve" s r).stats.rows_skipped_duplicate
        = s.stats.rows_skipped_duplicate) :
    processNRow false tp dp s r = processNRow false tp "preserve" s r := by
  unfold processNRow at h ⊢
  by_cases hn : r.name = ""
  · simp only [hn, eq_self_iff_true, if_true]
  · simp only [if_neg hn] at h ⊢
    rcases hrc : resolveContact false tp s r.name r.tier 0 with ⟨cid, ex, s1⟩
    rw [hrc] at h
    have hs1 := resolveContact_dup false tp s r.name r.tier 0
    rw [hrc] at hs1
    dsimp only at h hs1 ⊢
    cases ex
    · refine insertDetailStep_policy dp _ cid r ?_
      exact h.trans hs1.symm
    · refine insertDetailStep_policy dp _ cid r ?_
      exact h.trans hs1.symm

theorem pass2Step_policy (tp dp : String) (hasRT : Bool) (fns : List String)
    (s : MState) (row : Row)
    (h : (pass2Step false tp "preserve" hasRT fns s row).stats.rows_skipped_duplicate
        = s.stats.rows_skipped_duplicate) :
    pass2Step false tp dp hasRT fns s row
      = pass2Step false tp "preserve" hasRT fns s row := by
  cases hasRT <;> unfold pass2Step at h ⊢ <;> dsimp only at h ⊢
  · exact processNRow_policy tp dp s _ h
  · by_cases h1 : classify_record_type (get_val fns row "record_type") = ""
    · simp only [h1, eq_self_iff_true, if_true]
    · simp only [if_neg h1] at h ⊢
      by_cases h2 : classify_record_type (get_val fns row "record_type") ≠ "SYNTHESIZED_DETAIL"
      · simp only [if_pos h2]
      · simp only [if_neg h2] at h ⊢
        exact processNRow_policy tp dp s _ h

theorem mergeEngine_policy (tp dp : String) (fns : List String) (rows : List Row)
    (s0 : MState)
    (h : (mergeEngine false tp "preserve" fns rows s0).stats.rows_skipped_duplicate
        = s0.stats.rows_skipped_duplicate) :
    mergeEngine false tp dp fns rows s0 = mergeEngine false tp "preserve" fns rows s0 := by
  unfold mergeEngine at h ⊢
  cases hrt : has_logical fns "record_type" <;> rw [hrt] at h <;> dsimp only at h ⊢
  · exact foldl_policy (fun s => s.stats.rows_skipped_duplicate) _ _
      (fun s a => pass2Step_dup_mono false tp "preserve" false fns s a)
      (fun s a hm => pass2Step_policy tp dp false fns s a hm) rows s0 h
  · have hs1 : (rows.foldl (pass1Step false tp fns) s0).stats.rows_skipped_duplicate
        = s0.stats.rows_skipped_duplicate :=
      foldl_pres (fun s => s.stats.rows_skipped_duplicate) _
        (fun s a => pass1Step_dup false tp fns s a) rows s0
    exact foldl_policy (fun s => s.stats.rows_skipped_duplicate) _ _
      (fun s a => pass2Step_dup_mono false tp "preserve" true fns s a)
      (fun s a hm => pass2Step_policy tp dp true fns s a hm) rows
      (rows.foldl (pass1Step false tp fns) s0) (h.trans hs1.symm)

/-- Claim C4 amended: the `details` conflict policy acts exactly on
duplicate-signature rows; whenever the `preserve` run skips no duplicate, any
other policy value (in particular `append`) produces the identical result and
store.  (The counterexample above shows the policies genuinely differ on
duplicate rows, refuting the claim as stated.) -/
theorem details_policy_no_dup_equiv (store : Store) (fns : List String) (rows : List Row)
    (ptc pd : String)
    (h : (run_merge_process store fns rows
        ⟨false, ptc, "preserve"⟩).1.stats.rows_skipped_duplicate = 0) :
    run_merge_process store fns rows ⟨false, ptc, pd⟩
      = run_merge_process store fns rows ⟨false, ptc, "preserve"⟩ := by
  have hp : pyLower (pyOrS "preserve" "preserve") = "preserve" := by decide
  have h2 : (mergeEngine false (pyLower (pyOrS ptc "preserve"))
      (pyLower (pyOrS "preserve" "preserve")) (fns.map pyStrip) rows
      (initMState store)).stats.rows_skipped_duplicate
      = (initMState store).stats.rows_skipped_duplicate := h
  rw [hp] at h2
  have hE := mergeEngine_policy (pyLower (pyOrS ptc "preserve"))
    (pyLower (pyOrS pd "preserve")) (fns.map pyStrip) rows (initMState store) h2
  unfold run_merge_process
  dsimp only
  rw [hp, hE]

/-- Witness for the amended C4 at a duplicate-free concrete input. -/
theorem details_policy_no_dup_equiv_witness :
    (run_merge_process emptyStore simpleFields [vibesRow]
        ⟨false, "preserve", "preserve"⟩).1.stats.rows_skipped_duplicate = 0 ∧
    run_merge_process emptyStore simpleFields [vibesRow] ⟨false, "preserve", "append"⟩
      = run_merge_process emptyStore simpleFields [vibesRow] ⟨false, "preserve", "preserve"⟩ :=
  ⟨by decide, details_policy_no_dup_equiv emptyStore simpleFields [vibesRow]
    "preserve" "append" (by decide)⟩

/-! ## Claim C1 (amended): the stored category is the verbatim row text -/

theorem resolveContact_det_store (dry : Bool) (tp : String) (s : MState)
    (name tierRaw : String) (dflt : Int) :
    (resolveContact dry tp s name tierRaw dflt).2.2.existing_details_map
        = s.existing_details_map ∧
    (resolveContact dry tp s name tierRaw dflt).2.2.store.details = s.store.details := by
  simp only [resolveContact]
  cases hk : s.name_to_contact_id (pyLower name) <;> dsimp only
  · refine ⟨rfl, ?_⟩
    cases dry <;> rfl
  · split <;> exact ⟨rfl, rfl⟩

theorem insertDetailStep_details (dry : Bool) (dp : String) (s : MState)
    (cid : Int) (r : NRow) :
    ∀ d ∈ (insertDetailStep dry dp s cid r).store.details,
      d ∈ s.store.details ∨ d.category = pyOrS r.category "Uncategorized" := by
  intro d hd
  unfold insertDetailStep at hd
  dsimp only at hd
  split at hd
  · exact Or.inl hd
  · split at hd
    · exact Or.inl hd
    · cases dry with
      | false =>
        dsimp only at hd
        rcases List.mem_append.1 hd with h1 | h1
        · exact Or.inl h1
        · simp at h1
          exact Or.inr (by rw [h1])
      | true =>
        dsimp only at hd
        exact Or.inl hd

theorem processNRow_details (dry : Bool) (tp dp : String) (s : MState) (r : NRow) :
    ∀ d ∈ (processNRow dry tp dp s r).store.details,
      d ∈ s.store.details ∨ d.category = pyOrS r.category "Uncategorized" := by
  intro d hd
  unfold processNRow at hd
  split at hd
  · exact Or.inl hd
  · rcases hrc : resolveContact dry tp s r.name r.tier 0 with ⟨cid, ex, s1⟩
    rw [hrc] at hd
    have hds := resolveContact_det_store dry tp s r.name r.tier 0
    rw [hrc] at hds
    dsimp only at hd hds
    split at hd
    · rcases insertDetailStep_details dry dp _ cid r d hd with h1 | h1
      · exact Or.inl (hds.2 ▸ h1)
      · exact Or.inr h1
    · rcases insertDetailStep_details dry dp _ cid r d hd with h1 | h1
      · exact Or.inl (hds.2 ▸ h1)
      · exact Or.inr h1

theorem contactRowStep_details (dry : Bool) (tp : String) (fns : List String)
    (s : MState) (row : Row) :
    (contactRowStep dry tp fns s row).store.details = s.store.details := by
  simp only [contactRowStep]
  split
  · rfl
  · split
    · rfl
    · rcases hrc : resolveContact dry tp s (pyStrip (get_val fns row "contact_full_name"))
          (get_val fns row "contact_tier") 2 with ⟨cid, ex, s1⟩
      have hds := resolveContact_det_store dry tp s
        (pyStrip (get_val fns row "contact_full_name")) (get_val fns row "contact_tier") 2
      rw [hrc] at hds
      dsimp only at hds ⊢
      split
      · exact hds.2
      · exact hds.2

theorem pass1Step_details (dry : Bool) (tp : String) (fns : List String)
    (s : MState) (row : Row) :
    (pass1Step dry tp fns s row).store.details = s.store.details := by
  unfold pass1Step
  exact contactRowStep_details dry tp fns _ row

theorem pass2Step_details (dry : Bool) (tp dp : String) (hasRT : Bool)
    (fns : List String) (s : MState) (row : Row) :
    ∀ d ∈ (pass2Step dry tp dp hasRT fns s row).store.details,
      d ∈ s.store.details ∨ d.category = rowCategoryText hasRT fns row := by
  intro d hd
  cases hasRT <;> unfold pass2Step at hd <;> dsimp only at hd
  · exact processNRow_details dry tp dp s _ d hd
  · split at hd
    · exact Or.inl hd
    · split at hd
      · exact Or.inl hd
      · exact processNRow_details dry tp dp s _ d hd

/-- Claim C1 amended: `run_merge_process` never canonicalizes categories.
Every synthesized entry of the output store is either pre-existing or carries,
verbatim, the trimmed category text of some input row — with `'Uncategorized'`
substituted when that text is blank.  (The counterexample above shows a stored
category outside `CATEGORY_ORDER`, refuting the claim as stated.) -/
theorem merge_category_verbatim (store : Store) (fns : List String) (rows : List Row)
    (opts : MergeOptions) :
    ∀ d ∈ (run_merge_process store fns rows opts).2.details,
      d ∈ store.details ∨
      ∃ row ∈ rows, d.category
        = rowCategoryText (has_logical (fns.map pyStrip) "record_type") (fns.map pyStrip) row := by
  have h3 : ∀ (l : List Row) (s : MState),
      (l.foldl (pass1Step opts.dry_run
        (pyLower (pyOrS opts.policy_contact_tier "preserve"))
        (fns.map pyStrip)) s).store.details = s.store.details := by
    intro l
    induction l with
    | nil => intro s; rfl
    | cons a t ih =>
      intro s
      rw [List.foldl_cons, ih, pass1Step_details]
  have h1 : ∀ (s : MState), (∀ d ∈ s.store.details,
      d ∈ store.details ∨ ∃ row ∈ rows, d.category
        = rowCategoryText (has_logical (fns.map pyStrip) "record_type") (fns.map pyStrip) row) →
      ∀ d ∈ (rows.foldl (pass2Step opts.dry_run
          (pyLower (pyOrS opts.policy_contact_tier "preserve"))
          (pyLower (pyOrS opts.policy_details "preserve"))
          (has_logical (fns.map pyStrip) "record_type") (fns.map pyStrip)) s).store.details,
        d ∈ store.details ∨ ∃ row ∈ rows, d.category
          = rowCategoryText (has_logical (fns.map pyStrip) "record_type") (fns.map pyStrip) row := by
    intro s hs
    refine foldl_inv (fun s2 => ∀ d ∈ s2.store.details,
      d ∈ store.details ∨ ∃ row ∈ rows, d.category
        = rowCategoryText (has_logical (fns.map pyStrip) "record_type") (fns.map pyStrip) row)
      _ rows ?_ s hs
    intro s2 a ha hs2 d hd
    rcases pass2Step_details opts.dry_run _ _ _ _ s2 a d hd with h2 | h2
    · exact hs2 d h2
    · exact Or.inr ⟨a, ha, h2⟩
  have hs1 : (match has_logical (fns.map pyStrip) "record_type" with
      | true => rows.foldl (pass1Step opts.dry_run
          (pyLower (pyOrS opts.policy_contact_tier "preserve")) (fns.map pyStrip))
          (initMState store)
      | false => initMState store).store.details = store.details := by
    cases has_logical (fns.map pyStrip) "record_type" <;> dsimp only
    · rfl
    · exact h3 rows (initMState store)
  show ∀ d ∈ (mergeEngine opts.dry_run (pyLower (pyOrS opts.policy_contact_tier "preserve"))
      (pyLower (pyOrS opts.policy_details "preserve")) (fns.map pyStrip) rows
      (initMState store)).store.details, _
  unfold mergeEngine
  dsimp only
  refine h1 _ ?_
  intro d hd
  rw [hs1] at hd
  exact Or.inl hd

/-- Witness for the amended C1 at the concrete counterexample input. -/
theorem merge_category_verbatim_witness :
    (⟨0, "Vibes", "met at work"⟩ : Detail)
        ∈ (run_merge_process emptyStore simpleFields [vibesRow] wetPreserve).2.details ∧
    ((⟨0, "Vibes", "met at work"⟩ : Detail) ∈ emptyStore.details ∨
      ∃ row ∈ [vibesRow], (Detail.mk 0 "Vibes" "met at work").category
        = rowCategoryText (has_logical (simpleFields.map pyStrip) "record_type")
            (simpleFields.map pyStrip) row) :=
  ⟨by decide, merge_category_verbatim emptyStore simpleFields [vibesRow] wetPreserve
    ⟨0, "Vibes", "met at work"⟩ (by decide)⟩

/-! ## Claim C5: dedup totality of the detail loop -/

theorem pyStrip_orUncat (s : String) (h : pyStrip s = s) :
    pyStrip (pyOrS s "Uncategorized") = pyOrS s "Uncategorized" := by
  unfold pyOrS
  by_cases hs : s = ""
  · rw [if_pos hs]; decide
  · rw [if_neg hs]; exact h

theorem extractRecordRow_stripped (fns : List String) (row : Row) :
    pyStrip (extractRecordRow fns row).category = (extractRecordRow fns row).category ∧
    pyStrip (extractRecordRow fns row).detail = (extractRecordRow fns row).detail := by
  unfold extractRecordRow
  dsimp only
  exact ⟨pyStrip_idem _, pyStrip_idem _⟩

theorem extractSimpleRow_stripped (row : Row) :
    pyStrip (extractSimpleRow row).category = (extractSimpleRow row).category ∧
    pyStrip (extractSimpleRow row).detail = (extractSimpleRow row).detail := by
  unfold extractSimpleRow normO
  dsimp only
  exact ⟨pyStrip_idem _, pyStrip_idem _⟩

theorem resolveContact_sig (dry : Bool) (tp : String) (s : MState)
    (name tierRaw : String) (dflt : Int) (h : InvSig s) :
    InvSig (resolveContact dry tp s name tierRaw dflt).2.2 := by
  have hds := resolveContact_det_store dry tp s name tierRaw dflt
  unfold InvSig at h ⊢
  rw [hds.1, hds.2]
  exact h

theorem insertDetailStep_sig (dry : Bool) (s : MState) (cid : Int) (r : NRow)
    (hc : pyStrip r.category = r.category) (hdt : pyStrip r.detail = r.detail)
    (h : InvSig s) : InvSig (insertDetailStep dry "preserve" s cid r) := by
  have hsig : detailSig (Detail.mk cid (pyOrS r.category "Uncategorized") r.detail)
      = pyOrS r.category "Uncategorized" ++ "|" ++ r.detail := by
    unfold detailSig
    dsimp only
    rw [pyStrip_orUncat r.category hc, hdt]
  unfold InvSig at h ⊢
  unfold insertDetailStep
  dsimp only
  by_cases he : r.detail = ""
  · rw [if_pos he]
    exact h
  · rw [if_neg he]
    by_cases hdup : (s.existing_details_map cid).contains
        (pyOrS r.category "Uncategorized" ++ "|" ++ r.detail) = true
    · rw [if_pos ⟨hdup, rfl⟩]
      exact h
    · rw [if_neg (fun hx => hdup hx.1)]
      cases dry with
      | true =>
        dsimp only
        refine ⟨h.1, ?_⟩
        intro d hdm
        have h2 := h.2 d hdm
        unfold addSig
        by_cases hceq : d.contact_id = cid
        · rw [if_pos hceq]
          rw [addIfAbsent_contains]
          rw [hceq] at h2
          exact Or.inl h2
        · rw [if_neg hceq]
          exact h2
      | false =>
        dsimp only
        refine ⟨?_, ?_⟩
        · unfold sigPairs
          rw [List.map_append, List.nodup_append]
          refine ⟨h.1, List.nodup_singleton _, ?_⟩
          intro p hp hq
          simp only [List.map_cons, List.map_nil, List.mem_singleton] at hq
          rcases List.mem_map.1 hp with ⟨d, hdmem, hpd⟩
          rw [hq] at hpd
          have hcid : d.contact_id = cid := congrArg Prod.fst hpd
          have hs2 : detailSig d = pyOrS r.category "Uncategorized" ++ "|" ++ r.detail := by
            have h3 := congrArg Prod.snd hpd
            dsimp only at h3
            rw [h3, hsig]
          have h2 := h.2 d hdmem
          rw [hcid, hs2] at h2
          exact hdup h2
        · intro d hdm
          rcases List.mem_append.1 hdm with h1 | h1
          · have h2 := h.2 d h1
            unfold addSig
            by_cases hceq : d.contact_id = cid
            · rw [if_pos hceq]
              rw [addIfAbsent_contains]
              rw [hceq] at h2
              exact Or.inl h2
            · rw [if_neg hceq]
              exact h2
          · rw [List.mem_singleton] at h1
            rw [h1]
            dsimp only
            unfold addSig
            rw [if_pos rfl]
            rw [addIfAbsent_contains]
            exact Or.inr hsig

theorem processNRow_sig (dry : Bool) (tp : String) (s : MState) (r : NRow)
    (hc : pyStrip r.category = r.category) (hdt : pyStrip r.detail = r.detail)
    (h : InvSig s) : InvSig (processNRow dry tp "preserve" s r) := by
  unfold processNRow
  by_cases hn : r.name = ""
  · rw [if_pos hn]
    exact h
  · rw [if_neg hn]
    rcases hrc : resolveContact dry tp s r.name r.tier 0 with ⟨cid, ex, s1⟩
    have hs1 := resolveContact_sig dry tp s r.name r.tier 0 h
    rw [hrc] at hs1
    dsimp only
    cases ex
    · exact insertDetailStep_sig dry s1 cid r hc hdt hs1
    · exact insertDetailStep_sig dry _ cid r hc hdt hs1

theorem contactRowStep_sig (dry : Bool) (tp : String) (fns : List String)
    (s : MState) (row : Row) (h : InvSig s) :
    InvSig (contactRowStep dry tp fns s row) := by
  simp only [contactRowStep]
  split
  · exact h
  · split
    · exact h
    · rcases hrc : resolveContact dry tp s (pyStrip (get_val fns row "contact_full_name"))
          (get_val fns row "contact_tier") 2 with ⟨cid, ex, s1⟩
      have hs1 := resolveContact_sig dry tp s (pyStrip (get_val fns row "contact_full_name"))
        (get_val fns row "contact_tier") 2 h
      rw [hrc] at hs1
      dsimp only
      split
      · exact hs1
      · exact hs1

theorem pass1Step_sig (dry : Bool) (tp : String) (fns : List String)
    (s : MState) (row : Row) (h : InvSig s) :
    InvSig (pass1Step dry tp fns s row) := by
  unfold pass1Step
  exact contactRowStep_sig dry tp fns _ row h

theorem pass2Step_sig (dry : Bool) (tp : String) (hasRT : Bool) (fns : List String)
    (s : MState) (row : Row) (h : InvSig s) :
    InvSig (pass2Step dry tp "preserve" hasRT fns s row) := by
  cases hasRT <;> unfold pass2Step <;> dsimp only
  · exact processNRow_sig dry tp s (extractSimpleRow row)
      (extractSimpleRow_stripped row).1 (extractSimpleRow_stripped row).2 h
  · split
    · exact h
    · split
      · exact h
      · exact processNRow_sig dry tp s (extractRecordRow fns row)
          (extractRecordRow_stripped fns row).1 (extractRecordRow_stripped fns row).2 h

theorem mergeEngine_sig (dry : Bool) (tp : String) (fns : List String)
    (rows : List Row) (s0 : MState) (h : InvSig s0) :
    InvSig (mergeEngine dry tp "preserve" fns rows s0) := by
  unfold mergeEngine
  dsimp only
  have h1 : InvSig (match has_logical fns "record_type" with
      | true => rows.foldl (pass1Step dry tp fns) s0
      | false => s0) := by
    cases has_logical fns "record_type" <;> dsimp only
    · exact h
    · exact foldl_inv InvSig _ rows (fun s a _ hs => pass1Step_sig dry tp fns s a hs) s0 h
  exact foldl_inv InvSig _ rows (fun s a _ hs => pass2Step_sig dry tp _ fns s a hs) _ h1

theorem initMState_sig (store : Store) (h0 : (sigPairs store.details).Nodup) :
    InvSig (initMState store) := by
  unfold InvSig
  refine ⟨h0, ?_⟩
  intro d hd
  exact initDetailsMap_contains.2 ⟨d, hd, rfl, rfl⟩

/-- Counterexample to claim C5 (dedup totality): under the selectable `append`
details policy a non-dry run inserts a second synthesized entry whose
(contact, signature) pair is already present in the store, so "exactly one
DetailEntity per signature, the engine never inserts a second detail row with
an already-present signature" fails as stated for that policy. -/
theorem dedup_totality_cex :
    ¬ (sigPairs (run_merge_process aliceStore simpleFields [aliceDupRow]
        wetAppend).2.details).Nodup := by
  decide

/-- Claim C5 amended: under the `preserve` details policy (the default) the
dedup signature is total — starting from a store whose (contact, signature)
pairs are pairwise distinct, any run of `run_merge_process` (dry or not,
within one batch and hence across repeated batches) keeps them pairwise
distinct: the engine never inserts a second entry with an already-present
signature for the same contact. -/
theorem dedup_totality_preserve (store : Store) (fns : List String) (rows : List Row)
    (opts : MergeOptions)
    (hdp : pyLower (pyOrS opts.policy_details "preserve") = "preserve")
    (h0 : (sigPairs store.details).Nodup) :
    (sigPairs (run_merge_process store fns rows opts).2.details).Nodup := by
  show (sigPairs (mergeEngine opts.dry_run (pyLower (pyOrS opts.policy_contact_tier "preserve"))
      (pyLower (pyOrS opts.policy_details "preserve")) (fns.map pyStrip) rows
      (initMState store)).store.details).Nodup
  rw [hdp]
  exact (mergeEngine_sig opts.dry_run _ (fns.map pyStrip) rows (initMState store)
    (initMState_sig store h0)).1

/-- Witness for the amended C5: the duplicate-signature row that the `append`
policy duplicates is deduplicated under `preserve`. -/
theorem dedup_totality_preserve_witness :
    (pyLower (pyOrS wetPreserve.policy_details "preserve") = "preserve" ∧
      (sigPairs aliceStore.details).Nodup) ∧
    (sigPairs (run_merge_process aliceStore simpleFields [aliceDupRow]
        wetPreserve).2.details).Nodup :=
  ⟨⟨by decide, by decide⟩, dedup_totality_preserve aliceStore simpleFields [aliceDupRow]
    wetPreserve (by decide) (by decide)⟩

/-! ## Claim C7: contact uniqueness within the owner scope -/

theorem extractRecordRow_name_stripped (fns : List String) (row : Row) :
    pyStrip (extractRecordRow fns row).name = (extractRecordRow fns row).name := by
  unfold extractRecordRow
  dsimp only
  exact pyStrip_idem _

theorem extractSimpleRow_name_stripped (row : Row) :
    pyStrip (extractSimpleRow row).name = (extractSimpleRow row).name := by
  unfold extractSimpleRow normO
  dsimp only
  exact pyStrip_idem _

theorem scopedKeys_updateTier (st : Store) (cid tier : Int) :
    scopedKeys (updateTier st cid tier) = scopedKeys st := by
  unfold scopedKeys updateTier
  dsimp only
  induction st.contacts with
  | nil => rfl
  | cons c t ih =>
    have hscope : Contact.inScope (if c.id = cid then { c with tier := tier } else c)
        = Contact.inScope c := by
      by_cases hc : c.id = cid
      · rw [if_pos hc]; rfl
      · rw [if_neg hc]
    have hname : contactKey (if c.id = cid then { c with tier := tier } else c).full_name
        = contactKey c.full_name := by
      by_cases hc : c.id = cid
      · rw [if_pos hc]
      · rw [if_neg hc]
    simp only [List.map_cons, List.filter_cons, hscope]
    cases hs : Contact.inScope c
    · simp only [Bool.false_eq_true, if_false, ih]
    · simp only [if_true, List.map_cons, hname, ih]

theorem updateTier_mem (st : Store) (cid tier : Int) (c2 : Contact)
    (h : c2 ∈ (updateTier st cid tier).contacts) :
    ∃ c ∈ st.contacts, c2.full_name = c.full_name ∧ c2.inScope = c.inScope := by
  unfold updateTier at h
  dsimp only at h
  rcases List.mem_map.1 h with ⟨c, hc, heq⟩
  refine ⟨c, hc, ?_, ?_⟩
  · rw [← heq]
    by_cases hid : c.id = cid
    · rw [if_pos hid]
    · rw [if_neg hid]
  · rw [← heq]
    by_cases hid : c.id = cid
    · rw [if_pos hid]; rfl
    · rw [if_neg hid]

theorem resolveContact_key (dry : Bool) (tp : String) (s : MState)
    (name tierRaw : String) (dflt : Int) (hn : pyStrip name = name)
    (h : InvKey s) : InvKey (resolveContact dry tp s name tierRaw dflt).2.2 := by
  have hkn : contactKey name = pyLower name := by
    unfold contactKey
    rw [hn]
  unfold InvKey at h ⊢
  simp only [resolveContact]
  cases hk : s.name_to_contact_id (pyLower name)
  · dsimp only
    cases dry with
    | true =>
      dsimp only
      refine ⟨h.1, ?_⟩
      intro c hc hcs
      by_cases he : contactKey c.full_name = pyLower name
      · rw [if_pos he]; rfl
      · rw [if_neg he]
        exact h.2 c hc hcs
    | false =>
      dsimp only [insertContact]
      refine ⟨?_, ?_⟩
      · unfold scopedKeys
        dsimp only
        rw [List.filter_append, List.map_append]
        rw [List.nodup_append]
        refine ⟨h.1, ?_, ?_⟩
        · exact List.nodup_singleton _
        · intro a ha hq
          have hins : Contact.inScope
              ⟨s.store.next_contact_id, name, to_int_or 2 tierRaw, some 1⟩ = true := rfl
          simp only [List.filter_cons, List.filter_nil, hins, if_true,
            List.map_cons, List.map_nil, List.mem_singleton] at hq
          have hq2 : a = contactKey name := hq
          rcases List.mem_map.1 ha with ⟨c, hcf, hkey⟩
          rcases List.mem_filter.1 hcf with ⟨hcm, hcs⟩
          have hkey2 : contactKey c.full_name = a := hkey
          have h2 := h.2 c hcm hcs
          rw [hkey2, hq2, hkn, hk] at h2
          simp at h2
      · intro c hc hcs
        by_cases he : contactKey c.full_name = pyLower name
        · rw [if_pos he]; rfl
        · rw [if_neg he]
          rcases List.mem_append.1 hc with h1 | h1
          · exact h.2 c h1 hcs
          · rw [List.mem_singleton] at h1
            exfalso
            apply he
            rw [h1]
            exact hkn
  · dsimp only
    split
    · refine ⟨?_, ?_⟩
      · dsimp only
        rw [scopedKeys_updateTier]
        exact h.1
      · intro c hc hcs
        dsimp only at hc ⊢
        rcases updateTier_mem s.store _ _ c hc with ⟨c0, hc0, hfn, hsc⟩
        rw [hfn]
        exact h.2 c0 hc0 (by rw [← hsc]; exact hcs)
    · exact h

theorem insertDetailStep_key (dry : Bool) (dp : String) (s : MState)
    (cid : Int) (r : NRow) (h : InvKey s) :
    InvKey (insertDetailStep dry dp s cid r) := by
  unfold InvKey at h ⊢
  unfold insertDetailStep
  dsimp only
  split
  · exact h
  · split
    · exact h
    · cases dry <;> dsimp only <;> exact h

theorem processNRow_key (dry : Bool) (tp dp : String) (s : MState) (r : NRow)
    (hn : pyStrip r.name = r.name) (h : InvKey s) :
    InvKey (processNRow dry tp dp s r) := by
  unfold processNRow
  by_cases hne : r.name = ""
  · rw [if_pos hne]
    exact h
  · rw [if_neg hne]
    rcases hrc : resolveContact dry tp s r.name r.tier 0 with ⟨cid, ex, s1⟩
    have hs1 := resolveContact_key dry tp s r.name r.tier 0 hn h
    rw [hrc] at hs1
    dsimp only
    cases ex
    · exact insertDetailStep_key dry dp s1 cid r hs1
    · exact insertDetailStep_key dry dp _ cid r hs1

theorem contactRowStep_key (dry : Bool) (tp : String) (fns : List String)
    (s : MState) (row : Row) (h : InvKey s) :
    InvKey (contactRowStep dry tp fns s row) := by
  simp only [contactRowStep]
  split
  · exact h
  · split
    · exact h
    · rcases hrc : resolveContact dry tp s (pyStrip (get_val fns row "contact_full_name"))
          (get_val fns row "contact_tier") 2 with ⟨cid, ex, s1⟩
      have hs1 := resolveContact_key dry tp s (pyStrip (get_val fns row "contact_full_name"))
        (get_val fns row "contact_tier") 2 (pyStrip_idem _) h
      rw [hrc] at hs1
      dsimp only
      split
      · exact hs1
      · exact hs1

theorem pass1Step_key (dry : Bool) (tp : String) (fns : List String)
    (s : MState) (row : Row) (h : InvKey s) :
    InvKey (pass1Step dry tp fns s row) := by
  unfold pass1Step
  exact contactRowStep_key dry tp fns _ row h

theorem pass2Step_key (dry : Bool) (tp dp : String) (hasRT : Bool) (fns : List String)
    (s : MState) (row : Row) (h : InvKey s) :
    InvKey (pass2Step dry tp dp hasRT fns s row) := by
  cases hasRT <;> unfold pass2Step <;> dsimp only
  · exact processNRow_key dry tp dp s (extractSimpleRow row)
      (extractSimpleRow_name_stripped row) h
  · split
    · exact h
    · split
      · exact h
      · exact processNRow_key dry tp dp s (extractRecordRow fns row)
          (extractRecordRow_name_stripped fns row) h

theorem mergeEngine_key (dry : Bool) (tp dp : String) (fns : List String)
    (rows : List Row) (s0 : MState) (h : InvKey s0) :
    InvKey (mergeEngine dry tp dp fns rows s0) := by
  unfold mergeEngine
  dsimp only
  have h1 : InvKey (match has_logical fns "record_type" with
      | true => rows.foldl (pass1Step dry tp fns) s0
      | false => s0) := by
    cases has_logical fns "record_type" <;> dsimp only
    · exact h
    · exact foldl_inv InvKey _ rows (fun s a _ hs => pass1Step_key dry tp fns s a hs) s0 h
  exact foldl_inv InvKey _ rows (fun s a _ hs => pass2Step_key dry tp dp _ fns s a hs) _ h1

theorem initNameMap_isSome_mono (l : List Contact) (m : String → Option Int) (k : String)
    (h : (m k).isSome = true) :
    ((l.foldl (fun m c =>
      if c.inScope then
        (fun k2 => if k2 = contactKey c.full_name then some c.id else m k2)
      else m) m) k).isSome = true := by
  induction l generalizing m with
  | nil => exact h
  | cons c t ih =>
    rw [List.foldl_cons]
    apply ih
    by_cases hs : c.inScope
    · rw [if_pos hs]
      by_cases hk : k = contactKey c.full_name
      · rw [if_pos hk]; rfl
      · rw [if_neg hk]; exact h
    · rw [if_neg hs]; exact h

theorem initNameMap_isSome {contacts : List Contact} {c : Contact}
    (hc : c ∈ contacts) (hs : c.inScope = true) :
    (initNameMap contacts (contactKey c.full_name)).isSome = true := by
  unfold initNameMap
  suffices h : ∀ (l : List Contact) (m : String → Option Int), c ∈ l →
      ((l.foldl (fun m c =>
        if c.inScope then
          (fun k2 => if k2 = contactKey c.full_name then some c.id else m k2)
        else m) m) (contactKey c.full_name)).isSome = true by
    exact h contacts (fun _ => none) hc
  intro l
  induction l with
  | nil =>
    intro m hm
    cases hm
  | cons a t ih =>
    intro m hm
    rw [List.foldl_cons]
    rcases List.mem_cons.1 hm with rfl | hmt
    · apply initNameMap_isSome_mono
      rw [if_pos hs]
      rw [if_pos rfl]
      rfl
    · exact ih _ hmt

theorem initMState_key (store : Store) (h0 : (scopedKeys store).Nodup) :
    InvKey (initMState store) := by
  unfold InvKey
  refine ⟨h0, ?_⟩
  intro c hc hcs
  exact initNameMap_isSome hc hcs

/-- Claim C7 confirmed: within the owner scope (`COALESCE(user_id, 1) = 1`),
the engine never creates two contact rows whose trimmed, lower-cased names
coincide — starting from a store whose in-scope normalized names are pairwise
distinct, any run of `run_merge_process` (the `CONTACT` pre-pass and the
lazily-creating detail loop alike, within one batch and hence across
repeated imports) keeps them pairwise distinct: every later occurrence of a name
resolves through the name map to the already-existing contact. -/
theorem contact_uniqueness (store : Store) (fns : List String) (rows : List Row)
    (opts : MergeOptions) (h0 : (scopedKeys store).Nodup) :
    (scopedKeys (run_merge_process store fns rows opts).2).Nodup := by
  show (scopedKeys (mergeEngine opts.dry_run (pyLower (pyOrS opts.policy_contact_tier "preserve"))
      (pyLower (pyOrS opts.policy_details "preserve")) (fns.map pyStrip) rows
      (initMState store)).store).Nodup
  exact (mergeEngine_key opts.dry_run _ _ (fns.map pyStrip) rows (initMState store)
    (initMState_key store h0)).1

/-- Witness for C7: two more rows naming the already-stored contact (one a
duplicate detail, one new) leave a single in-scope `alice` key. -/
theorem contact_uniqueness_witness :
    (scopedKeys aliceStore).Nodup ∧
    (scopedKeys (run_merge_process aliceStore simpleFields [aliceDupRow, vibesRow]
        wetPreserve).2).Nodup :=
  ⟨by decide, contact_uniqueness aliceStore simpleFields [aliceDupRow, vibesRow]
    wetPreserve (by decide)⟩
